import Mathlib

/-!
imsimseq: material catalog loader, filter and JSON tree renderer

A shallow embedding of `core/include/ims/catalogs.hpp`,
`core/include/ims/json_adapters.hpp` and the loader, filter and tree renderer of
`src/main.cpp`, followed by theorems about them.

Conventions of the embedding

* `std::string` is a list of characters (`Str`).  The strings the program handles are
  UTF-8 text (the JSON parser rejects anything else), for which byte-wise search and
  byte-wise `tolower` in the "C" locale agree with their character-wise counterparts.
* `const char*` arguments are obtained with `c_str`, which stops at the first NUL.
* `nlohmann::json` is the inductive type `Json`; an object is the list of entries of its
  `std::map`, in key order.  Library operations used by the program (`at`, `contains`,
  `operator[]`, `value`, `get`, `size`, the initializer-list constructor) are modelled
  after the library; a thrown exception is `Except.error` carrying `what()`.
* The file system, the text parser of the library, `printf`'s `%g`, `json::dump` and the
  open/closed state that ImGui keeps for tree nodes are parameters.
-/

namespace ims

/-! ## Strings -/

/-- A `std::string`. -/
abbrev Str := List Char

/-- The NUL character. -/
def NUL : Char := Char.ofNat 0

/-- The view of a string as a C string (`std::string::c_str` read by a `%s`
conversion or by a `const char*` parameter): the characters before the first NUL. -/
def c_str (s : Str) : Str := s.takeWhile (fun c => c != NUL)

/-- Decimal digits of a natural number (`%zu`, `std::to_string(size_t)`). -/
def fmt_zu (n : Nat) : Str := Nat.toDigits 10 n

/-- Decimal representation of a signed integer (`%lld`). -/
def fmt_lld : Int → Str
  | Int.ofNat n => Nat.toDigits 10 n
  | Int.negSucc n => '-' :: Nat.toDigits 10 (n + 1)

/-- Strict lexicographic order on strings (`std::less<std::string>`). -/
def str_lt : Str → Str → Bool
  | [], [] => false
  | [], _ :: _ => true
  | _ :: _, [] => false
  | a :: s, b :: t =>
    if a.toNat < b.toNat then true else if b.toNat < a.toNat then false else str_lt s t

/-! ## The JSON value of the library -/

/-- A `nlohmann::json` value.  `number_integer` holds an `int64_t`, `number_unsigned`
a `uint64_t`, `number_float` the bit pattern of a `double`; `object` holds the entries
of the underlying `std::map` in key order; `binary` stands for the values that reach the
`default:` branch of the renderer (the text parser never produces one). -/
inductive Json where
  | null
  | boolean (b : Bool)
  | number_integer (i : Int)
  | number_unsigned (n : Nat)
  | number_float (bits : Nat)
  | string (s : Str)
  | array (xs : List Json)
  | object (kvs : List (Str × Json))
  | binary (bs : List Nat)

instance : Inhabited Json := ⟨Json.null⟩

namespace Json

/-- The library's `type_name()`. -/
def type_name : Json → Str
  | null => "null".toList
  | boolean _ => "boolean".toList
  | number_integer _ => "number".toList
  | number_unsigned _ => "number".toList
  | number_float _ => "number".toList
  | string _ => "string".toList
  | array _ => "array".toList
  | object _ => "object".toList
  | binary _ => "binary".toList

/-- Lookup of a key among the entries of a map. -/
def find_key (key : Str) : List (Str × Json) → Option Json
  | [] => none
  | (k, v) :: rest => if k = key then some v else find_key key rest

/-- The method `std::map::emplace`: insert at the sorted position unless the key is
already present. -/
def map_emplace (key : Str) (v : Json) : List (Str × Json) → List (Str × Json)
  | [] => [(key, v)]
  | (k, w) :: rest =>
    if k = key then (k, w) :: rest
    else if str_lt key k then (key, v) :: (k, w) :: rest
    else (k, w) :: map_emplace key v rest

/-- The test the initializer-list constructor applies to each element: an array of two
elements whose first is a string; returns the key and the value. -/
def as_pair : Json → Option (Str × Json)
  | array [string k, v] => some (k, v)
  | _ => none

/-- Emplace the elements of an initializer list that are key/value pairs, in order. -/
def emplace_all : List Json → List (Str × Json) → List (Str × Json)
  | [], acc => acc
  | e :: es, acc =>
    match as_pair e with
    | some (k, v) => emplace_all es (map_emplace k v acc)
    | none => emplace_all es acc

/-- The constructor `basic_json(initializer_list_t)`: an object when every element is
a two-element array starting with a string, an array otherwise. -/
def init_list (elems : List Json) : Json :=
  if elems.all (fun e => (as_pair e).isSome) then object (emplace_all elems [])
  else array elems

/-- The method `contains(key)`: false on anything but an object. -/
def contains (j : Json) (key : Str) : Bool :=
  match j with
  | object kvs => (find_key key kvs).isSome
  | _ => false

/-- The exception text of `type_error` number `n`. -/
def type_error (n : Nat) (msg : Str) : Str :=
  "[json.exception.type_error.".toList ++ fmt_zu n ++ "] ".toList ++ msg

/-- The exception text of `out_of_range` number `n`. -/
def out_of_range (n : Nat) (msg : Str) : Str :=
  "[json.exception.out_of_range.".toList ++ fmt_zu n ++ "] ".toList ++ msg

/-- The checked access `at(key)`: `type_error` 304 on a non-object, `out_of_range` 403 on a
missing key. -/
def at_key (j : Json) (key : Str) : Except Str Json :=
  match j with
  | object kvs =>
    match find_key key kvs with
    | some v => Except.ok v
    | none => Except.error (out_of_range 403 ("key '".toList ++ key ++ "' not found".toList))
  | _ => Except.error (type_error 304 ("cannot use at() with ".toList ++ j.type_name))

/-- The access `operator[](key)` on an object that the caller has checked with `contains`; a
key that is absent reads as null (the library inserts a null there). -/
def idx (j : Json) (key : Str) : Json :=
  match j with
  | object kvs => (find_key key kvs).getD null
  | _ => null

/-- Conversion `get<std::string>` / `get_to(std::string&)`: `type_error` 302 unless a string. -/
def get_string (j : Json) : Except Str Str :=
  match j with
  | string s => Except.ok s
  | _ => Except.error (type_error 302 ("type must be string, but is ".toList ++ j.type_name))

/-- Element-wise conversion of the elements of an array to strings; the first failure is
thrown. -/
def get_strings : List Json → Except Str (List Str)
  | [] => Except.ok []
  | x :: xs =>
    match get_string x with
    | Except.error e => Except.error e
    | Except.ok s =>
      match get_strings xs with
      | Except.error e => Except.error e
      | Except.ok ss => Except.ok (s :: ss)

/-- Conversion `get_to(std::vector<std::string>&)`: `type_error` 302 unless an array. -/
def get_string_vector (j : Json) : Except Str (List Str) :=
  match j with
  | array xs => get_strings xs
  | _ => Except.error (type_error 302 ("type must be array, but is ".toList ++ j.type_name))

/-- The method `value(key, default)` with a string default: `type_error` 306 on a non-object,
the default when the key is absent, the conversion of the entry otherwise. -/
def value (j : Json) (key : Str) (dflt : Str) : Except Str Str :=
  match j with
  | object kvs =>
    match find_key key kvs with
    | some v => get_string v
    | none => Except.ok dflt
  | _ => Except.error (type_error 306 ("cannot use value() with ".toList ++ j.type_name))

/-- The method `size()`: number of entries of an object, of elements of an array, 0 for null,
1 for the other values. -/
def size : Json → Nat
  | null => 0
  | array xs => xs.length
  | object kvs => kvs.length
  | _ => 1

/-- Conversion `get<long long>()` of a number: the stored `int64_t` as is, the stored
`uint64_t` converted by `static_cast`, which wraps modulo `2^64`. -/
def get_long_long : Json → Int
  | number_integer i => i
  | number_unsigned n => ((n : Int) + 2 ^ 63) % 2 ^ 64 - 2 ^ 63
  | _ => 0

end Json

/-! ## catalogs.hpp -/

/-- The struct `ims::Material`. -/
structure Material where
  id : Str := []
  name : Str := []
  tags : List Str := []
  properties : Json := Json.null

/-- The struct `ims::Catalogs`. -/
structure Catalogs where
  materials : List Material := []

/-- The struct `ims::Bundle`. -/
structure Bundle where
  config_version : Str := "1.0.0".toList
  catalogs : Catalogs := {}

/-! ## json_adapters.hpp -/

/-- The adapter `ims::to_json`. -/
def to_json (m : Material) : Json :=
  Json.init_list [
    Json.init_list [Json.string "id".toList, Json.string m.id],
    Json.init_list [Json.string "name".toList, Json.string m.name],
    Json.init_list [Json.string "tags".toList, Json.array (m.tags.map Json.string)],
    Json.init_list [Json.string "properties".toList, m.properties]]

/-- The adapter `ims::from_json`, writing into `m`; an exception leaves the caller without a
result. -/
def from_json (j : Json) (m : Material) : Except Str Material :=
  match j.at_key "id".toList with
  | Except.error e => Except.error e
  | Except.ok jid =>
    match jid.get_string with
    | Except.error e => Except.error e
    | Except.ok id =>
      let m1 := { m with id := id }
      match j.at_key "name".toList with
      | Except.error e => Except.error e
      | Except.ok jname =>
        match jname.get_string with
        | Except.error e => Except.error e
        | Except.ok name =>
          let m2 := { m1 with name := name }
          match (if j.contains "tags".toList then
                   match j.at_key "tags".toList with
                   | Except.error e => Except.error e
                   | Except.ok jt =>
                     match jt.get_string_vector with
                     | Except.error e => Except.error e
                     | Except.ok ts => Except.ok { m2 with tags := ts }
                 else Except.ok m2 : Except Str Material) with
          | Except.error e => Except.error e
          | Except.ok m3 =>
            if j.contains "properties".toList then
              match j.at_key "properties".toList with
              | Except.error e => Except.error e
              | Except.ok jp => Except.ok { m3 with properties := jp }
            else Except.ok m3

/-- Conversion `get<std::vector<ims::Material>>` applied to the elements of an array: each
element is converted with `from_json` into a default-constructed `Material`. -/
def get_materials : List Json → Except Str (List Material)
  | [] => Except.ok []
  | x :: xs =>
    match from_json x {} with
    | Except.error e => Except.error e
    | Except.ok m =>
      match get_materials xs with
      | Except.error e => Except.error e
      | Except.ok ms => Except.ok (m :: ms)

/-- Conversion `get<std::vector<ims::Material>>()`: `type_error` 302 unless an array. -/
def get_material_vector (j : Json) : Except Str (List Material) :=
  match j with
  | Json.array xs => get_materials xs
  | _ => Except.error (Json.type_error 302 ("type must be array, but is ".toList ++ j.type_name))

/-! ## main.cpp: helpers -/

/-- The helper `join_tags`. -/
def join_tags : List Str → Str
  | [] => []
  | [t] => t
  | t :: u :: rest => t ++ ", ".toList ++ join_tags (u :: rest)

/-- The lambda `tolower` of `icontains`: `std::tolower` in the "C" locale, which maps
`A`..`Z` to `a`..`z` and leaves every other character alone. -/
def tolower (c : Char) : Char :=
  if 65 ≤ c.toNat ∧ c.toNat ≤ 90 then Char.ofNat (c.toNat + 32) else c

/-- The search `std::string::find(N)` on `H`, scanning start positions from `pos`
upwards; `none` is `npos`. -/
def find_from (N : Str) : Str → Nat → Option Nat
  | [], pos => if N.isPrefixOf [] then some pos else none
  | c :: H, pos => if N.isPrefixOf (c :: H) then some pos else find_from N H (pos + 1)

/-- The function `icontains`. -/
def icontains (hay needle : Str) : Bool :=
  let H := hay.map tolower
  let N := needle.map tolower
  (find_from N H 0).isSome

/-! ## main.cpp: RenderJsonTree -/

/-- What the renderer takes from its surroundings: the `%g` conversion of `printf` (on the
bit pattern of a double), `json::dump`, and whether ImGui holds the tree node with a given
ID stack (innermost first) open. -/
structure Ui where
  fmt_g : Nat → Str
  dump : Json → Str
  is_open : List Str → Bool

/-- A call the renderer makes to ImGui, with its formatted text. -/
inductive Draw where
  | TreeNode (str_id : Str) (text : Str)
  | TreePop
  | BulletText (text : Str)
  deriving DecidableEq

/-- The lambda `nodeLabel` of `RenderJsonTree`. -/
def nodeLabel (label : Option Str) (fallback : Str) : Str :=
  match label with
  | some (c :: l) => c :: l
  | _ => fallback

mutual
/-- The function `RenderJsonTree`; `label` is its `const char*` argument (`none` is
`nullptr`), `stack` the ID stack of ImGui at the call.  The result is the sequence of
calls made to ImGui. -/
def RenderJsonTree (ui : Ui) (stack : List Str) (j : Json) (label : Option Str) : List Draw :=
  match j with
  | Json.object kvs =>
    let str_id := nodeLabel label "object".toList
    Draw.TreeNode str_id
        (label.getD "object".toList ++ " \x7b ".toList ++ fmt_zu (Json.object kvs).size ++ " \x7d".toList) ::
      (if ui.is_open (str_id :: stack) then
        render_fields ui (str_id :: stack) kvs ++ [Draw.TreePop]
      else [])
  | Json.array xs =>
    let str_id := nodeLabel label "array".toList
    Draw.TreeNode str_id
        (label.getD "array".toList ++ " [ ".toList ++ fmt_zu (Json.array xs).size ++ " ]".toList) ::
      (if ui.is_open (str_id :: stack) then
        render_elems ui (str_id :: stack) 0 xs ++ [Draw.TreePop]
      else [])
  | Json.string s =>
    [Draw.BulletText (label.getD "string".toList ++ ": \"".toList ++ c_str s ++ "\"".toList)]
  | Json.boolean b =>
    [Draw.BulletText (label.getD "bool".toList ++ ": ".toList ++
      (if b then "true".toList else "false".toList))]
  | Json.number_integer i =>
    [Draw.BulletText (label.getD "int".toList ++ ": ".toList ++
      fmt_lld (Json.number_integer i).get_long_long)]
  | Json.number_unsigned n =>
    [Draw.BulletText (label.getD "int".toList ++ ": ".toList ++
      fmt_lld (Json.number_unsigned n).get_long_long)]
  | Json.number_float bits =>
    [Draw.BulletText (label.getD "float".toList ++ ": ".toList ++ ui.fmt_g bits)]
  | Json.null =>
    [Draw.BulletText (label.getD "null".toList ++ ": null".toList)]
  | Json.binary bs =>
    [Draw.BulletText (label.getD "value".toList ++ ": ".toList ++ c_str (ui.dump (Json.binary bs)))]
/-- The loop of `RenderJsonTree` over the entries of an object, in the order of the map. -/
def render_fields (ui : Ui) (stack : List Str) : List (Str × Json) → List Draw
  | [] => []
  | (k, v) :: rest => RenderJsonTree ui stack v (some (c_str k)) ++ render_fields ui stack rest
/-- The loop of `RenderJsonTree` over the elements of an array, from index `i`. -/
def render_elems (ui : Ui) (stack : List Str) (i : Nat) : List Json → List Draw
  | [] => []
  | x :: xs => RenderJsonTree ui stack x (some (fmt_zu i)) ++ render_elems ui stack (i + 1) xs
end

/-! ## main.cpp: AppState and LoadBundleFromFile -/

/-- The struct `AppState`. -/
structure AppState where
  bundle : Bundle := {}
  selected : Int := -1
  filter : Str := []

/-- The outcome of a call of `LoadBundleFromFile`: the returned flag and the two reference
arguments after the call. -/
structure LoadResult where
  ok : Bool
  state : AppState
  errorOut : Str

/-- The function `LoadBundleFromFile`.  `fs` gives the text of the file at a path (`none`
when the stream cannot be opened), `parse` is the text parser of the JSON library (`f >> j`),
failing with the text of its exception. -/
def LoadBundleFromFile (fs : Str → Option Str) (parse : Str → Except Str Json)
    (path : Str) (state : AppState) (errorOut : Str) : LoadResult :=
  match fs path with
  | none => ⟨false, state, "failed to open: ".toList ++ path⟩
  | some text =>
    match parse text with
    | Except.error what => ⟨false, state, "JSON error: ".toList ++ what⟩
    | Except.ok j =>
      let state1 : AppState := { state with bundle := {} }
      match j.value "config_version".toList "1.0.0".toList with
      | Except.error what => ⟨false, state1, "JSON error: ".toList ++ what⟩
      | Except.ok cv =>
        let state2 : AppState := { state1 with bundle := { state1.bundle with config_version := cv } }
        if j.contains "catalogs".toList && (j.idx "catalogs".toList).contains "materials".toList then
          match get_material_vector ((j.idx "catalogs".toList).idx "materials".toList) with
          | Except.error what => ⟨false, state2, "JSON error: ".toList ++ what⟩
          | Except.ok ms =>
            let state3 : AppState :=
              { state2 with bundle := { state2.bundle with catalogs := { materials := ms } } }
            ⟨true, { state3 with
              selected := if state3.bundle.catalogs.materials.isEmpty then -1 else 0 }, errorOut⟩
        else
          ⟨true, { state2 with
            selected := if state2.bundle.catalogs.materials.isEmpty then -1 else 0 }, errorOut⟩

/-! ## main.cpp: the rows of the materials table -/

/-- A row of the materials table: the index `i` the row selects when clicked, whether it is
drawn selected, and the three cell texts. -/
structure Row where
  index : Nat
  selected : Bool
  id : Str
  name : Str
  tags : Str
  deriving DecidableEq

/-- The loop over the tags in the row filter, which stops at the first hit. -/
def tags_hit (filter : Str) : List Str → Bool
  | [] => false
  | t :: ts => if icontains t filter then true else tags_hit filter ts

/-- The value of `hit` at the test `if (!hit) continue;` of the row filter. -/
def row_hit (m : Material) (filter : Str) : Bool :=
  let hit := icontains m.id filter || icontains m.name filter
  if !hit then tags_hit filter m.tags else hit

/-- The conversion `(int)` of a `size_t`: the value modulo `2^32`, read as a signed 32-bit
integer. -/
def to_int (n : Nat) : Int := ((n : Int) + 2147483648) % 4294967296 - 2147483648

/-- The row loop `for (int i = 0; i < (int)mats.size(); ++i)` of `main` from index `i` on:
`n` is the bound `(int)mats.size()`, the list holds the materials from index `i` on. -/
def table_rows_from (state : AppState) (n : Int) : Nat → List Material → List Row
  | _, [] => []
  | i, m :: ms =>
    if (i : Int) < n then
      if !state.filter.isEmpty && !row_hit m state.filter then
        table_rows_from state n (i + 1) ms
      else
        { index := i, selected := decide (state.selected = (i : Int)), id := c_str m.id,
          name := c_str m.name, tags := c_str (join_tags m.tags) } ::
          table_rows_from state n (i + 1) ms
    else []

/-- The rows of the materials table drawn in one frame. -/
def table_rows (state : AppState) : List Row :=
  table_rows_from state (to_int state.bundle.catalogs.materials.length) 0
    state.bundle.catalogs.materials

/-- The test of the inspector panel,
`state.selected >= 0 && state.selected < (int)materials.size()`: a material is selected. -/
def inspector_has_selection (state : AppState) : Bool :=
  decide (state.selected ≥ 0 ∧ state.selected < to_int state.bundle.catalogs.materials.length)

/-! ## Definitions used by the statements -/

/-- Two characters are the same letter up to case: they are equal, or one is a capital
`A`..`Z` and the other the small letter 32 code points above it. -/
def SameLetter (a b : Char) : Prop :=
  a = b ∨ (65 ≤ a.toNat ∧ a.toNat ≤ 90 ∧ b.toNat = a.toNat + 32) ∨
    (65 ≤ b.toNat ∧ b.toNat ≤ 90 ∧ a.toNat = b.toNat + 32)

/-- The needle, compared case-insensitively, is a contiguous substring of the hay: the hay
has a run of characters that matches the needle letter by letter up to case. -/
def CISubstring (needle hay : Str) : Prop :=
  ∃ pre mid post, hay = pre ++ mid ++ post ∧ List.Forall₂ SameLetter needle mid

/-- The condition under which the specification shows a material. -/
def Shown (m : Material) (filter : Str) : Prop :=
  filter = [] ∨ CISubstring filter m.id ∨ CISubstring filter m.name ∨
    ∃ t ∈ m.tags, CISubstring filter t

/-- The prefix the loader puts before the text of a caught exception. -/
def json_error : Str := "JSON error: ".toList

/-- The selection is -1 or a valid index into the material list. -/
def ValidSelection (state : AppState) : Prop :=
  state.selected = -1 ∨
    (0 ≤ state.selected ∧ state.selected < (state.bundle.catalogs.materials.length : Int))

/-- The fields of the material `m` are those of the JSON element `x`: its id and name, its
tags when it has the key (none otherwise), its properties when it has the key (null
otherwise). -/
def MaterialOf (x : Json) (m : Material) : Prop :=
  x.at_key "id".toList = Except.ok (Json.string m.id) ∧
  x.at_key "name".toList = Except.ok (Json.string m.name) ∧
  (∀ v, x.at_key "tags".toList = Except.ok v → v = Json.array (m.tags.map Json.string)) ∧
  (x.contains "tags".toList = false → m.tags = []) ∧
  (∀ v, x.at_key "properties".toList = Except.ok v → m.properties = v) ∧
  (x.contains "properties".toList = false → m.properties = Json.null)

/-- A material object of the file format: string id and name, and tags, when present, an
array of strings. -/
def WellFormedMaterial (x : Json) : Prop :=
  (∃ id, x.at_key "id".toList = Except.ok (Json.string id)) ∧
  (∃ name, x.at_key "name".toList = Except.ok (Json.string name)) ∧
  (∀ v, x.at_key "tags".toList = Except.ok v → ∃ ts : List Str, v = Json.array (ts.map Json.string))

/-- A document of the file format: an object whose config_version, when present, is a string
and whose catalogs.materials, when present, is an array of material objects. -/
def WellFormedDoc (doc : Json) : Prop :=
  (∃ top, doc = Json.object top) ∧
  (∀ v, doc.at_key "config_version".toList = Except.ok v → ∃ s, v = Json.string s) ∧
  (∀ c mv, doc.at_key "catalogs".toList = Except.ok c → c.at_key "materials".toList = Except.ok mv →
    ∃ xs, mv = Json.array xs ∧ ∀ x ∈ xs, WellFormedMaterial x)

mutual
/-- The sum of `f` over all the JSON values of a tree: the value itself, and the values inside
the elements of an array and the entries of an object. -/
def Json.sum_over (f : Json → Nat) : Json → Nat
  | Json.array xs => f (Json.array xs) + sum_over_elems f xs
  | Json.object kvs => f (Json.object kvs) + sum_over_fields f kvs
  | Json.null => f Json.null
  | Json.boolean b => f (Json.boolean b)
  | Json.number_integer i => f (Json.number_integer i)
  | Json.number_unsigned n => f (Json.number_unsigned n)
  | Json.number_float bits => f (Json.number_float bits)
  | Json.string s => f (Json.string s)
  | Json.binary bs => f (Json.binary bs)
/-- The sum over the elements of an array. -/
def sum_over_elems (f : Json → Nat) : List Json → Nat
  | [] => 0
  | x :: xs => x.sum_over f + sum_over_elems f xs
/-- The sum over the entries of an object. -/
def sum_over_fields (f : Json → Nat) : List (Str × Json) → Nat
  | [] => 0
  | (_, v) :: rest => v.sum_over f + sum_over_fields f rest
end

/-- A value is an object or an array. -/
def Json.is_container : Json → Bool
  | Json.array _ => true
  | Json.object _ => true
  | _ => false

/-- The number of JSON values in a tree. -/
def Json.count (j : Json) : Nat := j.sum_over (fun _ => 1)

/-- The number of objects and arrays in a tree. -/
def Json.containers (j : Json) : Nat := j.sum_over (fun v => if v.is_container then 1 else 0)

/-- The number of scalars in a tree. -/
def Json.scalars (j : Json) : Nat := j.sum_over (fun v => if v.is_container then 0 else 1)

/-- The call opens a tree node. -/
def Draw.is_node : Draw → Bool
  | Draw.TreeNode _ _ => true
  | _ => false

/-- The call draws a leaf line. -/
def Draw.is_leaf : Draw → Bool
  | Draw.BulletText _ => true
  | _ => false

/-- The number of tree nodes among some calls. -/
def node_count (ds : List Draw) : Nat := ds.countP Draw.is_node

/-- The number of leaf lines among some calls. -/
def leaf_count (ds : List Draw) : Nat := ds.countP Draw.is_leaf

/-! ## Sample inputs -/

/-- The renderer's parameters with every tree node open. -/
def ui_demo : Ui := { fmt_g := fun _ => "0".toList, dump := fun _ => [], is_open := fun _ => true }

/-- A key with a NUL character in it, as the JSON text `"a\u0000b"` gives. -/
def key_with_nul : Str := ['a', NUL, 'b']

/-- A parser that delivers the given document. -/
def parse_as (doc : Json) : Str → Except Str Json := fun _ => Except.ok doc

/-- A file system with one file, `bundle.json`. -/
def one_file (text : Str) : Str → Option Str :=
  fun path => if path = "bundle.json".toList then some text else none

/-- A well-formed document: a version and two materials, one with tags and one with
properties. -/
def sample_doc : Json :=
  Json.object [
    ("catalogs".toList, Json.object [
      ("materials".toList, Json.array [
        Json.object [("id".toList, Json.string "fe".toList), ("name".toList, Json.string "Iron".toList),
          ("tags".toList, Json.array [Json.string "metal".toList])],
        Json.object [("id".toList, Json.string "cu".toList), ("name".toList, Json.string "Copper".toList),
          ("properties".toList, Json.object [("density".toList, Json.number_unsigned 8960)])]])]),
    ("config_version".toList, Json.string "2.1.0".toList)]

/-- A document whose only material has a name and no id. -/
def doc_missing_id : Json :=
  Json.object [
    ("catalogs".toList, Json.object [
      ("materials".toList, Json.array [Json.object [("name".toList, Json.string "Iron".toList)]])])]

/-- A state with one material loaded and selected. -/
def sample_state : AppState :=
  { bundle := { config_version := "0.9".toList,
                catalogs := { materials := [{ id := "old".toList, name := "Old".toList }] } },
    selected := 0,
    filter := "ir".toList }

/-- A state with three materials and the filter `IR`. -/
def filter_state : AppState :=
  { bundle := { catalogs := { materials := [
      { id := "fe".toList, name := "Iron".toList, tags := ["metal".toList] },
      { id := "cu".toList, name := "Copper".toList, tags := ["metal".toList] },
      { id := "air".toList, name := "Dry air".toList, tags := ["gas".toList] }] } },
    filter := "IR".toList }

/-- A state whose catalog has `2^31` materials, with an empty filter. -/
def huge_state : AppState :=
  { bundle := { catalogs := { materials := List.replicate 2147483648 {} } } }

/-! ## Theorems: the JSON adapters -/

theorem get_strings_map_string (ts : List Str) :
    Json.get_strings (ts.map Json.string) = Except.ok ts := by
  induction ts with
  | nil => rfl
  | cons t ts ih => simp [Json.get_strings, Json.get_string, ih]

theorem to_json_eq (m : Material) :
    to_json m = Json.object [("id".toList, Json.string m.id), ("name".toList, Json.string m.name),
      ("properties".toList, m.properties), ("tags".toList, Json.array (m.tags.map Json.string))] := rfl

/-- C10: reading back with `from_json` the JSON that `to_json` produces for a material `m`
gives `m` again (id, name, tags in order, properties), whatever the material written into,
in particular a default-constructed one; and the object `to_json` produces has exactly the
four keys id, name, properties, tags (listed in the key order of the map). -/
theorem from_json_to_json_roundtrip (m : Material) :
    (∀ m0 : Material, from_json (to_json m) m0 = Except.ok m) ∧
    from_json (to_json m) {} = Except.ok m ∧
    ∃ kvs, to_json m = Json.object kvs ∧
      kvs.map Prod.fst = ["id".toList, "name".toList, "properties".toList, "tags".toList] := by
  have h : ∀ m0 : Material, from_json (to_json m) m0 = Except.ok m := by
    intro m0
    rw [to_json_eq]
    simp [from_json, Json.at_key, Json.find_key, Json.get_string, Json.contains,
      Json.get_string_vector, get_strings_map_string]
  exact ⟨h, h {}, _, to_json_eq m, rfl⟩

/-! ## Theorems: the row filter of the materials table -/

theorem char_eq_iff_toNat (a b : Char) : a = b ↔ a.toNat = b.toNat := by
  constructor
  · intro h; rw [h]
  · intro h
    have := congrArg Char.ofNat h
    simpa using this

theorem toNat_ofNat_small (n : Nat) (h : n < 55296) : (Char.ofNat n).toNat = n := by
  have hv : n.isValidChar := Or.inl h
  simp only [Char.ofNat, hv, dif_pos, Char.toNat, Char.ofNatAux]
  show (UInt32.ofNat' n _).toNat = n
  rfl

theorem tolower_toNat (c : Char) :
    (tolower c).toNat = if 65 ≤ c.toNat ∧ c.toNat ≤ 90 then c.toNat + 32 else c.toNat := by
  unfold tolower
  split
  · rename_i h
    exact toNat_ofNat_small _ (by omega)
  · rfl

/-- The lambda `tolower` identifies exactly the characters that are the same letter up to
case. -/
theorem tolower_eq_iff (a b : Char) : tolower a = tolower b ↔ SameLetter a b := by
  unfold SameLetter
  rw [char_eq_iff_toNat, char_eq_iff_toNat a b, tolower_toNat, tolower_toNat]
  split <;> split <;> omega

theorem map_tolower_eq_iff : ∀ (xs ys : Str),
    xs.map tolower = ys.map tolower ↔ List.Forall₂ SameLetter xs ys := by
  intro xs
  induction xs with
  | nil =>
    intro ys
    cases ys with
    | nil => simp
    | cons y ys => simp
  | cons x xs ih =>
    intro ys
    cases ys with
    | nil => simp
    | cons y ys =>
      simp only [List.map_cons, List.cons.injEq, List.forall₂_cons, tolower_eq_iff, ih]

theorem infix_map_tolower_iff (needle hay : Str) :
    needle.map tolower <:+: hay.map tolower ↔ CISubstring needle hay := by
  unfold CISubstring
  constructor
  · rintro ⟨s, t, h⟩
    obtain ⟨l₁, post, h1, h2, h3⟩ := List.map_eq_append_iff.mp h.symm
    obtain ⟨pre, mid, h4, h5, h6⟩ := List.map_eq_append_iff.mp h2
    refine ⟨pre, mid, post, ?_, ?_⟩
    · rw [h1, h4]
    · exact (map_tolower_eq_iff _ _).mp h6.symm
  · rintro ⟨pre, mid, post, rfl, h⟩
    refine ⟨pre.map tolower, post.map tolower, ?_⟩
    rw [(map_tolower_eq_iff _ _).mpr h]
    simp only [List.map_append]

theorem find_from_isSome (N : Str) : ∀ (H : Str) (pos : Nat),
    (find_from N H pos).isSome = true ↔ N <:+: H := by
  intro H
  induction H with
  | nil =>
    intro pos
    cases N with
    | nil => simp [find_from]
    | cons a N => simp [find_from, List.isPrefixOf]
  | cons c H ih =>
    intro pos
    rw [List.infix_cons_iff]
    by_cases h : N.isPrefixOf (c :: H) = true
    · simp only [find_from, h, if_true, Option.isSome_some, true_iff]
      exact Or.inl (List.isPrefixOf_iff_prefix.mp h)
    · have h2 : ¬ N <+: c :: H := fun hp => h (List.isPrefixOf_iff_prefix.mpr hp)
      simp only [find_from, h, if_false, Bool.false_eq_true]
      rw [ih (pos + 1)]
      exact ⟨Or.inr, fun hh => hh.resolve_left h2⟩

theorem icontains_iff (hay needle : Str) :
    icontains hay needle = true ↔ CISubstring needle hay := by
  rw [← infix_map_tolower_iff]
  unfold icontains
  exact find_from_isSome _ _ 0

theorem tags_hit_iff (filter : Str) : ∀ ts : List Str,
    tags_hit filter ts = true ↔ ∃ t ∈ ts, CISubstring filter t := by
  intro ts
  induction ts with
  | nil => simp [tags_hit]
  | cons t ts ih =>
    by_cases h : icontains t filter = true
    · simp only [tags_hit, h, if_true, true_iff]
      exact ⟨t, List.mem_cons_self _ _, (icontains_iff _ _).mp h⟩
    · simp only [tags_hit, h, if_false, Bool.false_eq_true, ih, List.mem_cons, exists_eq_or_imp]
      have h2 : ¬ CISubstring filter t := fun hc => h ((icontains_iff _ _).mpr hc)
      exact ⟨Or.inr, fun hh => hh.resolve_left h2⟩

theorem row_hit_iff (m : Material) (filter : Str) :
    row_hit m filter = true ↔
      CISubstring filter m.id ∨ CISubstring filter m.name ∨ ∃ t ∈ m.tags, CISubstring filter t := by
  unfold row_hit
  rw [← icontains_iff, ← icontains_iff, ← tags_hit_iff]
  cases h1 : icontains m.id filter <;> cases h2 : icontains m.name filter <;> simp

theorem row_shown_iff (m : Material) (filter : Str) :
    (filter.isEmpty = true ∨ row_hit m filter = true) ↔ Shown m filter := by
  unfold Shown
  rw [row_hit_iff, List.isEmpty_iff]

/-- The cast `(int)` keeps a size below `2^31`. -/
theorem to_int_small (n : Nat) (h : n < 2147483648) : to_int n = (n : Int) := by
  unfold to_int
  omega

theorem table_rows_from_index_mem (state : AppState) (n : Int) :
    ∀ (ms : List Material) (i k : Nat), ((i + ms.length : Nat) : Int) ≤ n →
    (k ∈ (table_rows_from state n i ms).map Row.index ↔
      i ≤ k ∧ ∃ m, ms[k - i]? = some m ∧ Shown m state.filter) := by
  intro ms
  induction ms with
  | nil => intro i k _; simp [table_rows_from]
  | cons m ms ih =>
    intro i k hn
    have hlt : (i : Int) < n := by
      simp only [List.length_cons] at hn
      omega
    have hn2 : (((i + 1) + ms.length : Nat) : Int) ≤ n := by
      simp only [List.length_cons] at hn
      have : i + 1 + ms.length = i + (ms.length + 1) := by omega
      rw [this]; exact hn
    have key : ∀ k, (i + 1 ≤ k ∧ ∃ m', ms[k - (i + 1)]? = some m' ∧ Shown m' state.filter) ↔
        (i < k ∧ ∃ m', (m :: ms)[k - i]? = some m' ∧ Shown m' state.filter) := by
      intro k
      constructor
      · rintro ⟨hk, m', h1, h2⟩
        refine ⟨hk, m', ?_, h2⟩
        have : k - i = (k - (i + 1)) + 1 := by omega
        rw [this, List.getElem?_cons_succ]; exact h1
      · rintro ⟨hk, m', h1, h2⟩
        refine ⟨hk, m', ?_, h2⟩
        have : k - i = (k - (i + 1)) + 1 := by omega
        rw [this, List.getElem?_cons_succ] at h1; exact h1
    by_cases hs : Shown m state.filter
    · have hc : (!state.filter.isEmpty && !row_hit m state.filter) = false := by
        rcases (row_shown_iff m state.filter).mpr hs with h | h <;> simp [h]
      simp only [table_rows_from, hlt, hc, Bool.false_eq_true, if_true, if_false, List.map_cons,
        List.mem_cons, ih (i + 1) k hn2, key]
      constructor
      · rintro (rfl | ⟨hk, h⟩)
        · exact ⟨le_refl _, m, by simp, hs⟩
        · exact ⟨le_of_lt hk, h⟩
      · rintro ⟨hk, h⟩
        rcases Nat.eq_or_lt_of_le hk with rfl | hlt2
        · exact Or.inl rfl
        · exact Or.inr ⟨hlt2, h⟩
    · have hc : (!state.filter.isEmpty && !row_hit m state.filter) = true := by
        have := mt (row_shown_iff m state.filter).mp hs
        simp only [not_or, Bool.not_eq_true] at this
        simp [this.1, this.2]
      simp only [table_rows_from, hlt, hc, if_true, ih (i + 1) k hn2, key]
      constructor
      · rintro ⟨hk, h⟩; exact ⟨le_of_lt hk, h⟩
      · rintro ⟨hk, m', h1, h2⟩
        rcases Nat.eq_or_lt_of_le hk with rfl | hlt2
        · simp at h1; subst h1; exact absurd h2 hs
        · exact ⟨hlt2, m', h1, h2⟩

theorem table_rows_from_index_ge (state : AppState) (n : Int) :
    ∀ (ms : List Material) (i : Nat), ∀ r ∈ table_rows_from state n i ms, i ≤ r.index := by
  intro ms
  induction ms with
  | nil => intro i r hr; simp [table_rows_from] at hr
  | cons m ms ih =>
    intro i r hr
    unfold table_rows_from at hr
    split at hr
    · split at hr
      · exact Nat.le_of_succ_le (ih (i + 1) r hr)
      · rcases List.mem_cons.mp hr with rfl | h
        · exact le_refl _
        · exact Nat.le_of_succ_le (ih (i + 1) r h)
    · cases hr

theorem table_rows_from_sorted (state : AppState) (n : Int) : ∀ (ms : List Material) (i : Nat),
    ((table_rows_from state n i ms).map Row.index).Pairwise (fun a b => a < b) := by
  intro ms
  induction ms with
  | nil => intro i; simp [table_rows_from]
  | cons m ms ih =>
    intro i
    unfold table_rows_from
    split
    · split
      · exact ih (i + 1)
      · rw [List.map_cons, List.pairwise_cons]
        refine ⟨?_, ih (i + 1)⟩
        intro b hb
        obtain ⟨r, hr, rfl⟩ := List.mem_map.mp hb
        exact table_rows_from_index_ge state n ms (i + 1) r hr
    · exact List.Pairwise.nil

theorem table_rows_from_cells (state : AppState) (n : Int) : ∀ (ms : List Material) (i : Nat),
    ∀ r ∈ table_rows_from state n i ms, i ≤ r.index ∧ ∃ m, ms[r.index - i]? = some m ∧
      r.id = c_str m.id ∧ r.name = c_str m.name ∧ r.tags = c_str (join_tags m.tags) ∧
      r.selected = decide (state.selected = (r.index : Int)) := by
  intro ms
  induction ms with
  | nil => intro i r hr; simp [table_rows_from] at hr
  | cons m ms ih =>
    intro i r hr
    have step : r ∈ table_rows_from state n (i + 1) ms → i ≤ r.index ∧
        ∃ m', (m :: ms)[r.index - i]? = some m' ∧
        r.id = c_str m'.id ∧ r.name = c_str m'.name ∧ r.tags = c_str (join_tags m'.tags) ∧
        r.selected = decide (state.selected = (r.index : Int)) := by
      intro h
      obtain ⟨hle, m', h1, h2⟩ := ih (i + 1) r h
      refine ⟨by omega, m', ?_, h2⟩
      have : r.index - i = (r.index - (i + 1)) + 1 := by omega
      rw [this, List.getElem?_cons_succ]; exact h1
    unfold table_rows_from at hr
    split at hr
    · split at hr
      · exact step hr
      · rcases List.mem_cons.mp hr with rfl | h
        · exact ⟨le_refl _, m, by simp, rfl, rfl, rfl, rfl⟩
        · exact step h
    · cases hr

theorem table_rows_from_no_filter (state : AppState) (n : Int) (hf : state.filter = []) :
    ∀ (ms : List Material) (i : Nat), ((i + ms.length : Nat) : Int) ≤ n →
      (table_rows_from state n i ms).map Row.index = List.range' i ms.length := by
  intro ms
  induction ms with
  | nil => intro i _; simp [table_rows_from]
  | cons m ms ih =>
    intro i hn
    have hlt : (i : Int) < n := by
      simp only [List.length_cons] at hn
      omega
    have hn2 : (((i + 1) + ms.length : Nat) : Int) ≤ n := by
      simp only [List.length_cons] at hn
      have : i + 1 + ms.length = i + (ms.length + 1) := by omega
      rw [this]; exact hn
    simp [table_rows_from, hf, hlt, ih (i + 1) hn2, List.range'_succ]

/-- When the bound `(int)mats.size()` is not positive the row loop draws nothing. -/
theorem table_rows_from_nonpos (state : AppState) (n : Int) (hn : n ≤ 0) :
    ∀ (ms : List Material) (i : Nat), table_rows_from state n i ms = [] := by
  intro ms i
  cases ms with
  | nil => rfl
  | cons m ms =>
    have h : ¬ (i : Int) < n := by omega
    simp only [table_rows_from, h, if_false]

/-- C1 as amended: for every catalog of fewer than `2^31` materials and every filter string,
the materials table has a row for the material at index `i` exactly when the filter is empty
or the filter, compared case-insensitively, is a contiguous substring of the material's id,
of its name or of one of its tags; the rows come in strictly increasing index order (the
catalog's order, no material twice), each row carries the cells of the material at its index,
and with an empty filter the rows are those of the indices `0 .. n-1`, every material once
in catalog order. -/
theorem table_rows_filter (state : AppState)
    (hsize : state.bundle.catalogs.materials.length < 2147483648) :
    (∀ (i : Nat) (m : Material), state.bundle.catalogs.materials[i]? = some m →
      (i ∈ (table_rows state).map Row.index ↔ Shown m state.filter)) ∧
    ((table_rows state).map Row.index).Pairwise (fun a b => a < b) ∧
    (∀ r ∈ table_rows state, ∃ m, state.bundle.catalogs.materials[r.index]? = some m ∧
      r.id = c_str m.id ∧ r.name = c_str m.name ∧ r.tags = c_str (join_tags m.tags)) ∧
    (state.filter = [] →
      (table_rows state).map Row.index = List.range state.bundle.catalogs.materials.length) := by
  have hn : ((0 + state.bundle.catalogs.materials.length : Nat) : Int) ≤
      to_int state.bundle.catalogs.materials.length := by
    rw [to_int_small _ hsize, Nat.zero_add]
  refine ⟨?_, table_rows_from_sorted state _ _ 0, ?_, ?_⟩
  · intro i m hm
    unfold table_rows
    rw [table_rows_from_index_mem state _ _ 0 i hn]
    simp only [Nat.zero_le, true_and, Nat.sub_zero, hm, Option.some.injEq, exists_eq_left']
  · intro r hr
    obtain ⟨_, m, h1, h2, h3, h4, _⟩ := table_rows_from_cells state _ _ 0 r hr
    exact ⟨m, by simpa using h1, h2, h3, h4⟩
  · intro hf
    unfold table_rows
    rw [table_rows_from_no_filter state _ hf _ 0 hn, List.range_eq_range']

/-- The catalog of `filter_state` has three materials; with the filter `IR` the material
`Iron` at index 0 has a row exactly when the specification shows it, and the rows drawn are
those of `Iron` and `Dry air`. -/
theorem table_rows_filter_witness :
    filter_state.bundle.catalogs.materials.length < 2147483648 ∧
    (0 ∈ (table_rows filter_state).map Row.index ↔
      Shown { id := "fe".toList, name := "Iron".toList, tags := ["metal".toList] }
        filter_state.filter) ∧
    (table_rows filter_state).map Row.index = [0, 2] :=
  ⟨by decide, (table_rows_filter filter_state (by decide)).1 0 _ rfl, by decide⟩

/-- A catalog of `2^31` materials with an empty filter: the material at index 0 is one the
specification shows, yet the bound `(int)mats.size()` is negative and no row is drawn. -/
theorem table_rows_huge_catalog :
    huge_state.filter = [] ∧
    huge_state.bundle.catalogs.materials[0]? = some ({} : Material) ∧
    Shown ({} : Material) huge_state.filter ∧
    table_rows huge_state = [] ∧
    0 ∉ (table_rows huge_state).map Row.index := by
  have hrows : table_rows huge_state = [] := by
    unfold table_rows
    apply table_rows_from_nonpos
    show to_int (List.replicate 2147483648 ({} : Material)).length ≤ 0
    rw [List.length_replicate]
    unfold to_int
    omega
  refine ⟨rfl, ?_, Or.inl rfl, hrows, ?_⟩
  · show (List.replicate 2147483648 ({} : Material))[0]? = some ({} : Material)
    rw [List.getElem?_replicate]
    simp
  · rw [hrows]
    simp

/-! ## Theorems: LoadBundleFromFile -/

theorem at_key_ok_iff (j : Json) (key : Str) (v : Json) :
    j.at_key key = Except.ok v ↔ ∃ kvs, j = Json.object kvs ∧ Json.find_key key kvs = some v := by
  cases j <;> simp [Json.at_key]
  rename_i kvs
  cases h : Json.find_key key kvs <;> simp

theorem contains_iff (j : Json) (key : Str) :
    j.contains key = true ↔ ∃ v, j.at_key key = Except.ok v := by
  cases j <;> simp [Json.contains, Json.at_key]
  rename_i kvs
  cases h : Json.find_key key kvs <;> simp

theorem idx_of_at_key (j : Json) (key : Str) (v : Json) (h : j.at_key key = Except.ok v) :
    j.idx key = v ∧ j.contains key = true := by
  obtain ⟨kvs, rfl, hk⟩ := (at_key_ok_iff j key v).mp h
  simp [Json.idx, Json.contains, hk]

theorem from_json_wellformed (x : Json) (h : WellFormedMaterial x) :
    ∃ m, from_json x {} = Except.ok m ∧ MaterialOf x m := by
  obtain ⟨⟨id, hid⟩, ⟨name, hname⟩, htags⟩ := h
  obtain ⟨kvs, rfl, hid2⟩ := (at_key_ok_iff _ _ _).mp hid
  have hname2 : Json.find_key "name".toList kvs = some (Json.string name) := by
    obtain ⟨kvs2, h1, h2⟩ := (at_key_ok_iff _ _ _).mp hname
    cases h1; exact h2
  cases ht : Json.find_key "tags".toList kvs with
  | none =>
    cases hp : Json.find_key "properties".toList kvs with
    | none =>
      refine ⟨{ id := id, name := name }, ?_, ?_⟩
      · simp only [from_json, Json.at_key, Json.contains, Json.get_string, hid2, hname2, ht, hp]; rfl
      · simp only [MaterialOf, Json.at_key, Json.contains, hid2, hname2, ht, hp]; simp
    | some p =>
      refine ⟨{ id := id, name := name, properties := p }, ?_, ?_⟩
      · simp only [from_json, Json.at_key, Json.contains, Json.get_string, hid2, hname2, ht, hp]; rfl
      · simp only [MaterialOf, Json.at_key, Json.contains, hid2, hname2, ht, hp]; simp
  | some t =>
    obtain ⟨ts, rfl⟩ := htags t (by simp only [Json.at_key, ht])
    cases hp : Json.find_key "properties".toList kvs with
    | none =>
      refine ⟨{ id := id, name := name, tags := ts }, ?_, ?_⟩
      · simp only [from_json, Json.at_key, Json.contains, Json.get_string, Json.get_string_vector,
          get_strings_map_string, hid2, hname2, ht, hp]; rfl
      · simp only [MaterialOf, Json.at_key, Json.contains, hid2, hname2, ht, hp]; simp
    | some p =>
      refine ⟨{ id := id, name := name, tags := ts, properties := p }, ?_, ?_⟩
      · simp only [from_json, Json.at_key, Json.contains, Json.get_string, Json.get_string_vector,
          get_strings_map_string, hid2, hname2, ht, hp]; rfl
      · simp only [MaterialOf, Json.at_key, Json.contains, hid2, hname2, ht, hp]; simp

theorem get_materials_wellformed : ∀ xs : List Json, (∀ x ∈ xs, WellFormedMaterial x) →
    ∃ ms, get_materials xs = Except.ok ms ∧ List.Forall₂ MaterialOf xs ms := by
  intro xs
  induction xs with
  | nil => intro _; exact ⟨[], rfl, List.Forall₂.nil⟩
  | cons x xs ih =>
    intro h
    obtain ⟨m, hm, hmo⟩ := from_json_wellformed x (h x (List.mem_cons_self _ _))
    obtain ⟨ms, hms, hall⟩ := ih (fun y hy => h y (List.mem_cons_of_mem _ hy))
    exact ⟨m :: ms, by simp [get_materials, hm, hms], List.Forall₂.cons hmo hall⟩

theorem forall₂_getElem? {α β : Type} {R : α → β → Prop} : ∀ {xs : List α} {ys : List β},
    List.Forall₂ R xs ys → ∀ (i : Nat) (x : α) (y : β), xs[i]? = some x → ys[i]? = some y → R x y := by
  intro xs ys h
  induction h with
  | nil => intro i x y hx; simp at hx
  | cons hr _ ih =>
    intro i x y hx hy
    cases i with
    | zero => simp at hx hy; subst hx; subst hy; exact hr
    | succ i => simp at hx hy; exact ih i x y hx hy

theorem load_of_open_failure (fs : Str → Option Str) (parse : Str → Except Str Json)
    (path : Str) (state : AppState) (errorOut : Str) (hfs : fs path = none) :
    LoadBundleFromFile fs parse path state errorOut =
      ⟨false, state, "failed to open: ".toList ++ path⟩ := by
  simp only [LoadBundleFromFile, hfs]

theorem load_of_parse_failure (fs : Str → Option Str) (parse : Str → Except Str Json)
    (path : Str) (state : AppState) (errorOut text what : Str) (hfs : fs path = some text)
    (hp : parse text = Except.error what) :
    LoadBundleFromFile fs parse path state errorOut = ⟨false, state, json_error ++ what⟩ := by
  simp only [LoadBundleFromFile, hfs, hp, json_error]

/-- What the loader does with a document the parser has delivered. -/
theorem load_of_doc (fs : Str → Option Str) (parse : Str → Except Str Json)
    (path : Str) (state : AppState) (errorOut text : Str) (doc : Json) (hfs : fs path = some text)
    (hp : parse text = Except.ok doc) :
    LoadBundleFromFile fs parse path state errorOut =
      match doc.value "config_version".toList "1.0.0".toList with
      | Except.error what =>
        ⟨false, { bundle := {}, selected := state.selected, filter := state.filter },
          json_error ++ what⟩
      | Except.ok cv =>
        if doc.contains "catalogs".toList &&
            (doc.idx "catalogs".toList).contains "materials".toList then
          match get_material_vector ((doc.idx "catalogs".toList).idx "materials".toList) with
          | Except.error what =>
            ⟨false,
              { bundle := { config_version := cv }, selected := state.selected, filter := state.filter },
              json_error ++ what⟩
          | Except.ok ms =>
            ⟨true,
              { bundle := { config_version := cv, catalogs := { materials := ms } },
                selected := if ms.isEmpty then -1 else 0, filter := state.filter },
              errorOut⟩
        else
          ⟨true, { bundle := { config_version := cv }, selected := -1, filter := state.filter },
            errorOut⟩ := by
  simp only [LoadBundleFromFile, hfs, hp]
  rfl

theorem json_error_starts (what : Str) : "JSON error: ".toList <+: json_error ++ what :=
  ⟨what, rfl⟩

theorem from_json_ok_contains (x : Json) (m m' : Material) (h : from_json x m = Except.ok m') :
    x.contains "id".toList = true ∧ x.contains "name".toList = true := by
  unfold from_json at h
  split at h
  · cases h
  · rename_i jid hid
    split at h
    · cases h
    · split at h
      · cases h
      · rename_i jname hname
        exact ⟨(contains_iff _ _).mpr ⟨_, hid⟩, (contains_iff _ _).mpr ⟨_, hname⟩⟩

theorem get_materials_ok_contains : ∀ (xs : List Json) (ms : List Material),
    get_materials xs = Except.ok ms →
      ∀ x ∈ xs, x.contains "id".toList = true ∧ x.contains "name".toList = true := by
  intro xs
  induction xs with
  | nil => intro ms _ x hx; cases hx
  | cons y ys ih =>
    intro ms h x hx
    unfold get_materials at h
    split at h
    · cases h
    · rename_i m hm
      split at h
      · cases h
      · rename_i ms' hms
        rcases List.mem_cons.mp hx with rfl | hx'
        · exact from_json_ok_contains _ _ _ hm
        · exact ih ms' hms x hx'

/-- C4: the loader fails with a descriptive error string.  When the file cannot be opened it
returns false and the error is "failed to open: " followed by the path; when the text is
not parseable JSON, or when some element of the document's catalogs.materials array lacks the
key "id" or the key "name", it returns false and the error starts with "JSON error: ". -/
theorem load_error_strings (fs : Str → Option Str) (parse : Str → Except Str Json)
    (path : Str) (state : AppState) (errorOut : Str) :
    (fs path = none →
      (LoadBundleFromFile fs parse path state errorOut).ok = false ∧
      (LoadBundleFromFile fs parse path state errorOut).errorOut =
        "failed to open: ".toList ++ path) ∧
    (∀ text what, fs path = some text → parse text = Except.error what →
      (LoadBundleFromFile fs parse path state errorOut).ok = false ∧
      "JSON error: ".toList <+: (LoadBundleFromFile fs parse path state errorOut).errorOut) ∧
    (∀ text doc c xs x, fs path = some text → parse text = Except.ok doc →
      doc.at_key "catalogs".toList = Except.ok c →
      c.at_key "materials".toList = Except.ok (Json.array xs) → x ∈ xs →
      (x.contains "id".toList = false ∨ x.contains "name".toList = false) →
      (LoadBundleFromFile fs parse path state errorOut).ok = false ∧
      "JSON error: ".toList <+: (LoadBundleFromFile fs parse path state errorOut).errorOut) := by
  refine ⟨?_, ?_, ?_⟩
  · intro hfs
    rw [load_of_open_failure _ _ _ _ _ hfs]
    exact ⟨rfl, rfl⟩
  · intro text what hfs hp
    rw [load_of_parse_failure _ _ _ _ _ _ _ hfs hp]
    exact ⟨rfl, json_error_starts _⟩
  · intro text doc c xs x hfs hp hc hm hx hlack
    rw [load_of_doc _ _ _ _ _ _ _ hfs hp]
    obtain ⟨hi1, hc1⟩ := idx_of_at_key _ _ _ hc
    obtain ⟨hi2, hc2⟩ := idx_of_at_key _ _ _ hm
    cases hv : doc.value "config_version".toList "1.0.0".toList with
    | error what => exact ⟨rfl, json_error_starts _⟩
    | ok cv =>
      simp only [hc1, hi1, hc2, hi2, Bool.and_self, if_true]
      cases hg : get_material_vector (Json.array xs) with
      | error what => exact ⟨rfl, json_error_starts _⟩
      | ok ms =>
        exfalso
        have := get_materials_ok_contains xs ms hg x hx
        rcases hlack with h | h
        · rw [this.1] at h; cases h
        · rw [this.2] at h; cases h

/-- C6: a successful load replaces the bundle entirely.  If loading a file succeeds from one
prior state, it succeeds from every other prior state, with the same bundle (version and
materials) and the same selected index, so both are determined by the file alone and nothing
of a prior bundle is kept; the filter string of each state is left as it was; and when the
document has no "catalogs" key or its catalogs has no "materials" key, the material list is
empty and selected is -1. -/
theorem load_replaces_bundle (fs : Str → Option Str) (parse : Str → Except Str Json)
    (path : Str) (s1 s2 : AppState) (e1 e2 : Str)
    (h : (LoadBundleFromFile fs parse path s1 e1).ok = true) :
    (LoadBundleFromFile fs parse path s2 e2).ok = true ∧
    (LoadBundleFromFile fs parse path s2 e2).state.bundle =
      (LoadBundleFromFile fs parse path s1 e1).state.bundle ∧
    (LoadBundleFromFile fs parse path s2 e2).state.selected =
      (LoadBundleFromFile fs parse path s1 e1).state.selected ∧
    (LoadBundleFromFile fs parse path s1 e1).state.filter = s1.filter ∧
    (LoadBundleFromFile fs parse path s2 e2).state.filter = s2.filter ∧
    (∀ text doc, fs path = some text → parse text = Except.ok doc →
      (doc.contains "catalogs".toList = false ∨
        (doc.idx "catalogs".toList).contains "materials".toList = false) →
      (LoadBundleFromFile fs parse path s1 e1).state.bundle.catalogs.materials = [] ∧
      (LoadBundleFromFile fs parse path s1 e1).state.selected = -1) := by
  cases hfs : fs path with
  | none => rw [load_of_open_failure _ _ _ _ _ hfs] at h; cases h
  | some text =>
    cases hp : parse text with
    | error what => rw [load_of_parse_failure _ _ _ _ _ _ _ hfs hp] at h; cases h
    | ok doc =>
      rw [load_of_doc _ _ _ s1 _ _ _ hfs hp] at h ⊢
      rw [load_of_doc _ _ _ s2 _ _ _ hfs hp]
      cases hv : doc.value "config_version".toList "1.0.0".toList with
      | error what => simp only [hv] at h; cases h
      | ok cv =>
        simp only [hv] at h ⊢
        by_cases hc : (doc.contains "catalogs".toList &&
            (doc.idx "catalogs".toList).contains "materials".toList) = true
        · simp only [hc, if_true] at h ⊢
          cases hg : get_material_vector ((doc.idx "catalogs".toList).idx "materials".toList) with
          | error what => simp only [hg] at h; cases h
          | ok ms =>
            refine ⟨rfl, rfl, rfl, rfl, rfl, ?_⟩
            intro text' doc' h1 h2 h3
            cases h1
            rw [hp] at h2
            cases h2
            have hc2 := Bool.and_eq_true_iff.mp hc
            rcases h3 with h3 | h3
            · rw [h3] at hc2; exact absurd hc2.1 Bool.false_ne_true
            · rw [h3] at hc2; exact absurd hc2.2 Bool.false_ne_true
        · rw [if_neg hc, if_neg hc]
          refine ⟨rfl, rfl, rfl, rfl, rfl, ?_⟩
          intro _ _ _ _ _
          exact ⟨rfl, rfl⟩

theorem value_wellformed (doc : Json) (dflt : Str) (top : List (Str × Json))
    (hobj : doc = Json.object top)
    (hcfg : ∀ v, doc.at_key "config_version".toList = Except.ok v → ∃ s, v = Json.string s) :
    ∃ cv, doc.value "config_version".toList dflt = Except.ok cv ∧
      (doc.contains "config_version".toList = false → cv = dflt) ∧
      (∀ s, doc.at_key "config_version".toList = Except.ok (Json.string s) → cv = s) := by
  subst hobj
  cases hk : Json.find_key "config_version".toList top with
  | none =>
    refine ⟨dflt, ?_, fun _ => rfl, ?_⟩
    · simp only [Json.value, hk]
    · intro s hs
      simp only [Json.at_key, hk] at hs
      cases hs
  | some v =>
    obtain ⟨s, rfl⟩ := hcfg v (by simp only [Json.at_key, hk])
    refine ⟨s, ?_, ?_, ?_⟩
    · simp only [Json.value, hk, Json.get_string]
    · intro hc
      simp only [Json.contains, hk, Option.isSome_some] at hc
      cases hc
    · intro s' hs
      simp only [Json.at_key, hk, Except.ok.injEq, Json.string.injEq] at hs
      exact hs

/-- The loader on a well-formed document: it succeeds, the version is the document's or the
default, and the materials are read element by element. -/
theorem load_wellformed (fs : Str → Option Str) (parse : Str → Except Str Json)
    (path : Str) (state : AppState) (errorOut text : Str) (doc : Json)
    (hfs : fs path = some text) (hp : parse text = Except.ok doc) (hwf : WellFormedDoc doc) :
    ∃ cv ms, LoadBundleFromFile fs parse path state errorOut =
        ⟨true,
          { bundle := { config_version := cv, catalogs := { materials := ms } },
            selected := if ms.isEmpty then -1 else 0, filter := state.filter },
          errorOut⟩ ∧
      (doc.contains "config_version".toList = false → cv = "1.0.0".toList) ∧
      (∀ s, doc.at_key "config_version".toList = Except.ok (Json.string s) → cv = s) ∧
      (∀ c xs, doc.at_key "catalogs".toList = Except.ok c →
        c.at_key "materials".toList = Except.ok (Json.array xs) → List.Forall₂ MaterialOf xs ms) := by
  obtain ⟨⟨top, htop⟩, hcfg, hmat⟩ := hwf
  obtain ⟨cv, hv, hd, hs⟩ := value_wellformed doc "1.0.0".toList top htop hcfg
  rw [load_of_doc _ _ _ _ _ _ _ hfs hp]
  simp only [hv]
  by_cases hc : (doc.contains "catalogs".toList &&
      (doc.idx "catalogs".toList).contains "materials".toList) = true
  · obtain ⟨h1, h2⟩ := Bool.and_eq_true_iff.mp hc
    obtain ⟨c, hcat⟩ := (contains_iff _ _).mp h1
    rw [(idx_of_at_key _ _ _ hcat).1] at h2 ⊢
    obtain ⟨mv, hmv⟩ := (contains_iff _ _).mp h2
    obtain ⟨xs, rfl, hxs⟩ := hmat c mv hcat hmv
    obtain ⟨ms, hms, hall⟩ := get_materials_wellformed xs hxs
    rw [(idx_of_at_key _ _ _ hmv).1]
    simp only [(idx_of_at_key _ _ _ hcat).2, (idx_of_at_key _ _ _ hmv).2, Bool.and_self, if_true,
      get_material_vector, hms]
    refine ⟨cv, ms, rfl, hd, hs, ?_⟩
    intro c' xs' hc' hm'
    rw [hcat] at hc'
    cases hc'
    rw [hmv] at hm'
    cases hm'
    exact hall
  · rw [if_neg hc]
    refine ⟨cv, [], rfl, hd, hs, ?_⟩
    intro c xs hc' hm'
    exfalso
    apply hc
    rw [Bool.and_eq_true_iff]
    refine ⟨(idx_of_at_key _ _ _ hc').2, ?_⟩
    rw [(idx_of_at_key _ _ _ hc').1]
    exact (idx_of_at_key _ _ _ hm').2

/-- C5: the loader tolerates missing optional fields.  On every well-formed document the load
returns true; a missing "config_version" yields "1.0.0" and a present one is taken as it is;
the materials correspond one to one to the elements of catalogs.materials, a material whose
object has no "tags" gets the empty tag list and one that has them gets them in the same
order, a material whose object has no "properties" gets null and one that has them gets that
JSON value. -/
theorem load_optional_fields (fs : Str → Option Str) (parse : Str → Except Str Json)
    (path : Str) (state : AppState) (errorOut text : Str) (doc : Json)
    (hfs : fs path = some text) (hp : parse text = Except.ok doc) (hwf : WellFormedDoc doc) :
    (LoadBundleFromFile fs parse path state errorOut).ok = true ∧
    (doc.contains "config_version".toList = false →
      (LoadBundleFromFile fs parse path state errorOut).state.bundle.config_version =
        "1.0.0".toList) ∧
    (∀ s, doc.at_key "config_version".toList = Except.ok (Json.string s) →
      (LoadBundleFromFile fs parse path state errorOut).state.bundle.config_version = s) ∧
    (∀ c xs, doc.at_key "catalogs".toList = Except.ok c →
      c.at_key "materials".toList = Except.ok (Json.array xs) →
      (LoadBundleFromFile fs parse path state errorOut).state.bundle.catalogs.materials.length =
        xs.length ∧
      ∀ (i : Nat) (x : Json) (m : Material), xs[i]? = some x →
        (LoadBundleFromFile fs parse path state errorOut).state.bundle.catalogs.materials[i]? =
          some m →
        (x.contains "tags".toList = false → m.tags = []) ∧
        (∀ ts : List Str, x.at_key "tags".toList = Except.ok (Json.array (ts.map Json.string)) →
          m.tags = ts) ∧
        (x.contains "properties".toList = false → m.properties = Json.null) ∧
        (∀ v, x.at_key "properties".toList = Except.ok v → m.properties = v)) := by
  obtain ⟨cv, ms, hload, hd, hs, hall⟩ := load_wellformed fs parse path state errorOut text doc hfs hp hwf
  rw [hload]
  refine ⟨rfl, hd, hs, ?_⟩
  intro c xs hc hm
  have h2 := hall c xs hc hm
  refine ⟨h2.length_eq.symm, ?_⟩
  intro i x m hx hmi
  obtain ⟨_, _, ht1, ht2, hp1, hp2⟩ := forall₂_getElem? h2 i x m hx hmi
  refine ⟨ht2, ?_, hp2, hp1⟩
  intro ts hts
  have := ht1 _ hts
  simp only [Json.array.injEq] at this
  exact (List.map_injective_iff.mpr (fun a b hab => by cases hab; rfl) this).symm

/-- C2: on a well-formed bundle document, an object whose config_version, when present, is a
string and whose catalogs.materials is an array of material objects (string id and name, and
tags, when present, an array of strings), the load returns true and the material list has the
length of the array and at every index the id, name, tags and properties of the element at
that index, in file order. -/
theorem load_populates_materials (fs : Str → Option Str) (parse : Str → Except Str Json)
    (path : Str) (state : AppState) (errorOut text : Str) (doc c : Json) (xs : List Json)
    (hfs : fs path = some text) (hp : parse text = Except.ok doc)
    (hcfg : ∀ v, doc.at_key "config_version".toList = Except.ok v → ∃ s, v = Json.string s)
    (hc : doc.at_key "catalogs".toList = Except.ok c)
    (hm : c.at_key "materials".toList = Except.ok (Json.array xs))
    (hxs : ∀ x ∈ xs, WellFormedMaterial x) :
    (LoadBundleFromFile fs parse path state errorOut).ok = true ∧
    (LoadBundleFromFile fs parse path state errorOut).state.bundle.catalogs.materials.length =
      xs.length ∧
    ∀ (i : Nat) (x : Json) (m : Material), xs[i]? = some x →
      (LoadBundleFromFile fs parse path state errorOut).state.bundle.catalogs.materials[i]? =
        some m →
      MaterialOf x m := by
  have hwf : WellFormedDoc doc := by
    obtain ⟨top, htop, _⟩ := (at_key_ok_iff _ _ _).mp hc
    refine ⟨⟨top, htop⟩, hcfg, ?_⟩
    intro c' mv hc' hm'
    rw [hc] at hc'
    cases hc'
    rw [hm] at hm'
    cases hm'
    exact ⟨xs, rfl, hxs⟩
  obtain ⟨cv, ms, hload, _, _, hall⟩ := load_wellformed fs parse path state errorOut text doc hfs hp hwf
  rw [hload]
  have h2 := hall c xs hc hm
  exact ⟨rfl, h2.length_eq.symm, fun i x m hx hmi => forall₂_getElem? h2 i x m hx hmi⟩

/-! ### Failed loads -/

/-- A load that fails after the text has been parsed: the bundle has been reset, selected and
filter are as before. -/
theorem load_failure_of_doc (fs : Str → Option Str) (parse : Str → Except Str Json)
    (path : Str) (state : AppState) (errorOut text : Str) (doc : Json)
    (hfs : fs path = some text) (hp : parse text = Except.ok doc)
    (h : (LoadBundleFromFile fs parse path state errorOut).ok = false) :
    (LoadBundleFromFile fs parse path state errorOut).state.selected = state.selected ∧
    (LoadBundleFromFile fs parse path state errorOut).state.filter = state.filter ∧
    (LoadBundleFromFile fs parse path state errorOut).state.bundle.catalogs.materials = [] ∧
    (∀ cv, doc.value "config_version".toList "1.0.0".toList = Except.ok cv →
      (LoadBundleFromFile fs parse path state errorOut).state.bundle.config_version = cv) ∧
    (∀ what, doc.value "config_version".toList "1.0.0".toList = Except.error what →
      (LoadBundleFromFile fs parse path state errorOut).state.bundle.config_version =
        "1.0.0".toList) ∧
    "JSON error: ".toList <+: (LoadBundleFromFile fs parse path state errorOut).errorOut := by
  revert h
  rw [load_of_doc _ _ _ _ _ _ _ hfs hp]
  cases hv : doc.value "config_version".toList "1.0.0".toList with
  | error what =>
    intro _
    exact ⟨rfl, rfl, rfl, fun cv h => (by cases h), fun _ _ => rfl, json_error_starts _⟩
  | ok cv =>
    by_cases hc : (doc.contains "catalogs".toList &&
        (doc.idx "catalogs".toList).contains "materials".toList) = true
    · simp only [hc, if_true]
      cases hg : get_material_vector ((doc.idx "catalogs".toList).idx "materials".toList) with
      | error what =>
        intro _
        exact ⟨rfl, rfl, rfl, fun cv' h => (by cases h; rfl), fun _ h => (by cases h),
          json_error_starts _⟩
      | ok ms => intro h; cases h
    · simp only [if_neg hc]
      intro h; cases h

/-- The state after a successful load. -/
theorem load_ok_state (fs : Str → Option Str) (parse : Str → Except Str Json)
    (path : Str) (state : AppState) (errorOut : Str)
    (h : (LoadBundleFromFile fs parse path state errorOut).ok = true) :
    ∃ cv ms, (LoadBundleFromFile fs parse path state errorOut).state =
      { bundle := { config_version := cv, catalogs := { materials := ms } },
        selected := if ms.isEmpty then -1 else 0, filter := state.filter } := by
  revert h
  cases hfs : fs path with
  | none => rw [load_of_open_failure _ _ _ _ _ hfs]; intro h; cases h
  | some text =>
    cases hp : parse text with
    | error what => rw [load_of_parse_failure _ _ _ _ _ _ _ hfs hp]; intro h; cases h
    | ok doc =>
      rw [load_of_doc _ _ _ _ _ _ _ hfs hp]
      cases hval : doc.value "config_version".toList "1.0.0".toList with
      | error what => intro h; cases h
      | ok cv =>
        by_cases hc : (doc.contains "catalogs".toList &&
            (doc.idx "catalogs".toList).contains "materials".toList) = true
        · simp only [hc, if_true]
          cases hg : get_material_vector ((doc.idx "catalogs".toList).idx "materials".toList) with
          | error what => intro h; cases h
          | ok ms => intro _; exact ⟨cv, ms, rfl⟩
        · simp only [if_neg hc]
          intro _
          exact ⟨cv, [], rfl⟩

/-! ### Which documents the loader accepts -/

theorem get_string_ok (j : Json) (s : Str) (h : j.get_string = Except.ok s) : j = Json.string s := by
  cases j with
  | string t =>
    simp only [Json.get_string, Except.ok.injEq] at h
    rw [h]
  | _ =>
    simp only [Json.get_string] at h
    cases h

theorem get_strings_ok : ∀ (xs : List Json) (ts : List Str),
    Json.get_strings xs = Except.ok ts → xs = ts.map Json.string := by
  intro xs
  induction xs with
  | nil =>
    intro ts h
    simp only [Json.get_strings] at h
    cases h
    rfl
  | cons x xs ih =>
    intro ts h
    unfold Json.get_strings at h
    split at h
    · cases h
    · rename_i s hs
      split at h
      · cases h
      · rename_i ss hss
        cases h
        rw [List.map_cons, ← ih ss hss, ← get_string_ok x s hs]

theorem get_string_vector_ok (j : Json) (ts : List Str) (h : j.get_string_vector = Except.ok ts) :
    j = Json.array (ts.map Json.string) := by
  cases j <;> simp only [Json.get_string_vector] at h <;> first | cases h | skip
  rename_i xs
  rw [get_strings_ok xs ts h]

theorem from_json_ok_wellformed (x : Json) (m m' : Material) (h : from_json x m = Except.ok m') :
    WellFormedMaterial x := by
  unfold from_json at h
  split at h
  · cases h
  · rename_i jid hid
    split at h
    · cases h
    · rename_i id hgid
      split at h
      · cases h
      · rename_i jname hname
        split at h
        · cases h
        · rename_i name hgname
          refine ⟨⟨id, ?_⟩, ⟨name, ?_⟩, ?_⟩
          · rw [hid, get_string_ok jid id hgid]
          · rw [hname, get_string_ok jname name hgname]
          · intro v hv
            have hc : x.contains "tags".toList = true := (contains_iff _ _).mpr ⟨v, hv⟩
            simp only [hc, if_true, hv] at h
            cases hts : v.get_string_vector with
            | error e =>
              simp only [hts] at h
              all_goals cases h
            | ok ts => exact ⟨ts, get_string_vector_ok v ts hts⟩

theorem get_materials_ok_wellformed : ∀ (xs : List Json) (ms : List Material),
    get_materials xs = Except.ok ms → ∀ x ∈ xs, WellFormedMaterial x := by
  intro xs
  induction xs with
  | nil => intro ms _ x hx; cases hx
  | cons y ys ih =>
    intro ms h x hx
    unfold get_materials at h
    split at h
    · cases h
    · rename_i m hm
      split at h
      · cases h
      · rename_i ms' hms
        rcases List.mem_cons.mp hx with rfl | hx'
        · exact from_json_ok_wellformed _ _ _ hm
        · exact ih ms' hms x hx'

theorem get_material_vector_ok (j : Json) (ms : List Material)
    (h : get_material_vector j = Except.ok ms) :
    ∃ xs, j = Json.array xs ∧ ∀ x ∈ xs, WellFormedMaterial x := by
  cases j <;> simp only [get_material_vector] at h <;> first | cases h | skip
  rename_i xs
  exact ⟨xs, rfl, get_materials_ok_wellformed xs ms h⟩

theorem value_ok (doc : Json) (key dflt cv : Str) (h : doc.value key dflt = Except.ok cv) :
    (∃ top, doc = Json.object top) ∧
    (∀ v, doc.at_key key = Except.ok v → ∃ s, v = Json.string s) := by
  cases doc <;> simp only [Json.value] at h <;> first | cases h | skip
  rename_i kvs
  refine ⟨⟨kvs, rfl⟩, ?_⟩
  intro v hv
  simp only [Json.at_key] at hv
  cases hk : Json.find_key key kvs with
  | none => rw [hk] at hv; cases hv
  | some w =>
    rw [hk] at hv h
    cases hv
    simp only at h
    exact ⟨cv, get_string_ok _ _ h⟩

theorem value_of_string (doc : Json) (key dflt s : Str)
    (h : doc.at_key key = Except.ok (Json.string s)) : doc.value key dflt = Except.ok s := by
  obtain ⟨kvs, rfl, hk⟩ := (at_key_ok_iff _ _ _).mp h
  simp only [Json.value, hk, Json.get_string]

theorem value_of_no_string (doc : Json) (key dflt cv : Str)
    (h : ∀ s, doc.at_key key ≠ Except.ok (Json.string s))
    (hv : doc.value key dflt = Except.ok cv) : cv = dflt := by
  cases doc <;> simp only [Json.value] at hv <;> first | cases hv | skip
  rename_i kvs
  cases hk : Json.find_key key kvs with
  | none =>
    rw [hk] at hv
    cases hv
    rfl
  | some v =>
    rw [hk] at hv
    simp only at hv
    exact absurd (by simp only [Json.at_key, hk, get_string_ok v cv hv]) (h cv)

/-- A document the loader accepts is well-formed. -/
theorem load_ok_wellformed (fs : Str → Option Str) (parse : Str → Except Str Json)
    (path : Str) (state : AppState) (errorOut text : Str) (doc : Json)
    (hfs : fs path = some text) (hp : parse text = Except.ok doc)
    (h : (LoadBundleFromFile fs parse path state errorOut).ok = true) : WellFormedDoc doc := by
  revert h
  rw [load_of_doc _ _ _ _ _ _ _ hfs hp]
  cases hval : doc.value "config_version".toList "1.0.0".toList with
  | error what => intro h; cases h
  | ok cv =>
    obtain ⟨htop, hcfg⟩ := value_ok _ _ _ _ hval
    by_cases hc : (doc.contains "catalogs".toList &&
        (doc.idx "catalogs".toList).contains "materials".toList) = true
    · simp only [hc, if_true]
      cases hg : get_material_vector ((doc.idx "catalogs".toList).idx "materials".toList) with
      | error what => intro h; cases h
      | ok ms =>
        intro _
        refine ⟨htop, hcfg, ?_⟩
        intro c mv hcat hmat
        rw [(idx_of_at_key _ _ _ hcat).1, (idx_of_at_key _ _ _ hmat).1] at hg
        exact get_material_vector_ok mv ms hg
    · intro _
      refine ⟨htop, hcfg, ?_⟩
      intro c mv hcat hmat
      exfalso
      apply hc
      rw [Bool.and_eq_true_iff]
      refine ⟨(idx_of_at_key _ _ _ hcat).2, ?_⟩
      rw [(idx_of_at_key _ _ _ hcat).1]
      exact (idx_of_at_key _ _ _ hmat).2

/-- C3 as amended: on a missing or malformed file the load returns false, sets the error
string and leaves selected and filter as they were.  When the file cannot be opened or its
text is not parseable JSON the whole state is unchanged.  When the text parses to a document
that is not a well-formed bundle document (not an object, a config_version that is not a
string, or a catalogs.materials that is not an array of material objects, for instance a
material without id), the bundle has been reset before the failure: the material list is
empty and the version is the document's config_version when that is a string, "1.0.0"
otherwise; the error starts with "JSON error: ".  A parsed document is rejected exactly when
it is not well-formed. -/
theorem load_failure_state (fs : Str → Option Str) (parse : Str → Except Str Json)
    (path : Str) (state : AppState) (errorOut : Str) :
    (fs path = none →
      (LoadBundleFromFile fs parse path state errorOut).ok = false ∧
      (LoadBundleFromFile fs parse path state errorOut).state = state ∧
      (LoadBundleFromFile fs parse path state errorOut).errorOut =
        "failed to open: ".toList ++ path) ∧
    (∀ text what, fs path = some text → parse text = Except.error what →
      (LoadBundleFromFile fs parse path state errorOut).ok = false ∧
      (LoadBundleFromFile fs parse path state errorOut).state = state ∧
      (LoadBundleFromFile fs parse path state errorOut).errorOut = "JSON error: ".toList ++ what) ∧
    (∀ text doc, fs path = some text → parse text = Except.ok doc → ¬ WellFormedDoc doc →
      (LoadBundleFromFile fs parse path state errorOut).ok = false ∧
      (LoadBundleFromFile fs parse path state errorOut).state.selected = state.selected ∧
      (LoadBundleFromFile fs parse path state errorOut).state.filter = state.filter ∧
      (LoadBundleFromFile fs parse path state errorOut).state.bundle.catalogs.materials = [] ∧
      (∀ s, doc.at_key "config_version".toList = Except.ok (Json.string s) →
        (LoadBundleFromFile fs parse path state errorOut).state.bundle.config_version = s) ∧
      ((∀ s, doc.at_key "config_version".toList ≠ Except.ok (Json.string s)) →
        (LoadBundleFromFile fs parse path state errorOut).state.bundle.config_version =
          "1.0.0".toList) ∧
      "JSON error: ".toList <+: (LoadBundleFromFile fs parse path state errorOut).errorOut) ∧
    (∀ text doc, fs path = some text → parse text = Except.ok doc →
      ((LoadBundleFromFile fs parse path state errorOut).ok = false ↔ ¬ WellFormedDoc doc)) := by
  have hrej : ∀ text doc, fs path = some text → parse text = Except.ok doc →
      ¬ WellFormedDoc doc → (LoadBundleFromFile fs parse path state errorOut).ok = false := by
    intro text doc hfs hp hwf
    cases hok : (LoadBundleFromFile fs parse path state errorOut).ok with
    | false => rfl
    | true => exact absurd (load_ok_wellformed fs parse path state errorOut text doc hfs hp hok) hwf
  refine ⟨?_, ?_, ?_, ?_⟩
  · intro hfs
    rw [load_of_open_failure _ _ _ _ _ hfs]
    exact ⟨rfl, rfl, rfl⟩
  · intro text what hfs hp
    rw [load_of_parse_failure _ _ _ _ _ _ _ hfs hp]
    exact ⟨rfl, rfl, rfl⟩
  · intro text doc hfs hp hwf
    have hfalse := hrej text doc hfs hp hwf
    obtain ⟨h1, h2, h3, h4, h5, h6⟩ :=
      load_failure_of_doc fs parse path state errorOut text doc hfs hp hfalse
    refine ⟨hfalse, h1, h2, h3, ?_, ?_, h6⟩
    · intro s hs
      exact h4 s (value_of_string doc _ _ s hs)
    · intro hno
      cases hval : doc.value "config_version".toList "1.0.0".toList with
      | error what => exact h5 what hval
      | ok cv =>
        rw [h4 cv hval]
        exact value_of_no_string doc _ _ cv hno hval
  · intro text doc hfs hp
    constructor
    · intro hfalse hwf
      obtain ⟨cv, ms, hload, _⟩ :=
        load_wellformed fs parse path state errorOut text doc hfs hp hwf
      rw [hload] at hfalse
      cases hfalse
    · exact hrej text doc hfs hp

/-- C9 as amended: a load that returns true sets selected to 0 when the new list is non-empty
and to -1 when it is empty, a valid selection; a load that fails to open the file or to parse
its text leaves the state, and with it a valid selection, as it was; a load that fails on the
structure of a parsed document empties the material list and keeps the prior selected, so that
the selection is valid afterwards exactly when it was -1 before, and the bounds check of the
inspector finds no selected material. -/
theorem load_selection (fs : Str → Option Str) (parse : Str → Except Str Json)
    (path : Str) (state : AppState) (errorOut : Str) (hv : ValidSelection state) :
    ((LoadBundleFromFile fs parse path state errorOut).ok = true →
      ValidSelection (LoadBundleFromFile fs parse path state errorOut).state ∧
      (LoadBundleFromFile fs parse path state errorOut).state.selected =
        if (LoadBundleFromFile fs parse path state errorOut).state.bundle.catalogs.materials.isEmpty
        then -1 else 0) ∧
    (fs path = none → ValidSelection (LoadBundleFromFile fs parse path state errorOut).state) ∧
    (∀ text what, fs path = some text → parse text = Except.error what →
      ValidSelection (LoadBundleFromFile fs parse path state errorOut).state) ∧
    (∀ text doc, fs path = some text → parse text = Except.ok doc →
      (LoadBundleFromFile fs parse path state errorOut).ok = false →
      (LoadBundleFromFile fs parse path state errorOut).state.selected = state.selected ∧
      (LoadBundleFromFile fs parse path state errorOut).state.bundle.catalogs.materials = [] ∧
      (ValidSelection (LoadBundleFromFile fs parse path state errorOut).state ↔
        state.selected = -1) ∧
      inspector_has_selection (LoadBundleFromFile fs parse path state errorOut).state = false) := by
  refine ⟨?_, ?_, ?_, ?_⟩
  · intro h
    obtain ⟨cv, ms, hst⟩ := load_ok_state fs parse path state errorOut h
    rw [hst]
    refine ⟨?_, rfl⟩
    cases ms with
    | nil => exact Or.inl rfl
    | cons m ms =>
      refine Or.inr ⟨le_refl _, ?_⟩
      show (0 : Int) < ((m :: ms).length : Int)
      simp only [List.length_cons]
      omega
  · intro hfs
    rw [load_of_open_failure _ _ _ _ _ hfs]
    exact hv
  · intro text what hfs hp
    rw [load_of_parse_failure _ _ _ _ _ _ _ hfs hp]
    exact hv
  · intro text doc hfs hp h
    obtain ⟨h1, _, h2, _⟩ := load_failure_of_doc fs parse path state errorOut text doc hfs hp h
    refine ⟨h1, h2, ?_, ?_⟩
    · unfold ValidSelection
      rw [h1, h2]
      constructor
      · rintro (h3 | ⟨h3, h4⟩)
        · exact h3
        · simp only [List.length_nil] at h4
          omega
      · intro h3; exact Or.inl h3
    · have h0 : to_int 0 = 0 := by unfold to_int; omega
      unfold inspector_has_selection
      rw [h2]
      simp only [List.length_nil, decide_eq_false_iff_not, h0]
      omega

/-! ## Theorems: RenderJsonTree -/

theorem node_count_append (a b : List Draw) : node_count (a ++ b) = node_count a + node_count b :=
  List.countP_append _ _ _

theorem leaf_count_append (a b : List Draw) : leaf_count (a ++ b) = leaf_count a + leaf_count b :=
  List.countP_append _ _ _

theorem is_container_object (kvs : List (Str × Json)) :
    (Json.object kvs).is_container = true := rfl

theorem is_container_array (xs : List Json) : (Json.array xs).is_container = true := rfl

mutual
theorem render_counts (ui : Ui) (h : ∀ p, ui.is_open p = true) : ∀ (j : Json) (stack : List Str)
    (label : Option Str),
    node_count (RenderJsonTree ui stack j label) = j.containers ∧
    leaf_count (RenderJsonTree ui stack j label) = j.scalars
  | Json.object kvs, stack, label => by
    have ih := render_fields_counts ui h kvs (nodeLabel label "object".toList :: stack)
    simp only [RenderJsonTree, h, if_true, Json.containers, Json.scalars, Json.sum_over,
      is_container_object, is_container_array]
    simp only [node_count, leaf_count, List.countP_cons, List.countP_append, List.countP_nil,
      Draw.is_node, Draw.is_leaf] at ih ⊢
    simp only [ih.1, ih.2]
    constructor <;> simp [Nat.add_comm]
  | Json.array xs, stack, label => by
    have ih := render_elems_counts ui h xs (nodeLabel label "array".toList :: stack) 0
    simp only [RenderJsonTree, h, if_true, Json.containers, Json.scalars, Json.sum_over,
      is_container_object, is_container_array]
    simp only [node_count, leaf_count, List.countP_cons, List.countP_append, List.countP_nil,
      Draw.is_node, Draw.is_leaf] at ih ⊢
    simp only [ih.1, ih.2]
    constructor <;> simp [Nat.add_comm]
  | Json.null, _, _ => by
    simp [RenderJsonTree, Json.containers, Json.scalars, Json.sum_over, Json.is_container,
      node_count, leaf_count, Draw.is_node, Draw.is_leaf]
  | Json.boolean _, _, _ => by
    simp [RenderJsonTree, Json.containers, Json.scalars, Json.sum_over, Json.is_container,
      node_count, leaf_count, Draw.is_node, Draw.is_leaf]
  | Json.number_integer _, _, _ => by
    simp [RenderJsonTree, Json.containers, Json.scalars, Json.sum_over, Json.is_container,
      node_count, leaf_count, Draw.is_node, Draw.is_leaf]
  | Json.number_unsigned _, _, _ => by
    simp [RenderJsonTree, Json.containers, Json.scalars, Json.sum_over, Json.is_container,
      node_count, leaf_count, Draw.is_node, Draw.is_leaf]
  | Json.number_float _, _, _ => by
    simp [RenderJsonTree, Json.containers, Json.scalars, Json.sum_over, Json.is_container,
      node_count, leaf_count, Draw.is_node, Draw.is_leaf]
  | Json.string _, _, _ => by
    simp [RenderJsonTree, Json.containers, Json.scalars, Json.sum_over, Json.is_container,
      node_count, leaf_count, Draw.is_node, Draw.is_leaf]
  | Json.binary _, _, _ => by
    simp [RenderJsonTree, Json.containers, Json.scalars, Json.sum_over, Json.is_container,
      node_count, leaf_count, Draw.is_node, Draw.is_leaf]
theorem render_fields_counts (ui : Ui) (h : ∀ p, ui.is_open p = true) :
    ∀ (kvs : List (Str × Json)) (stack : List Str),
    node_count (render_fields ui stack kvs) =
      sum_over_fields (fun v => if v.is_container then 1 else 0) kvs ∧
    leaf_count (render_fields ui stack kvs) =
      sum_over_fields (fun v => if v.is_container then 0 else 1) kvs
  | [], _ => by simp [render_fields, sum_over_fields, node_count, leaf_count]
  | (k, v) :: rest, stack => by
    have h1 := render_counts ui h v stack (some (c_str k))
    have h2 := render_fields_counts ui h rest stack
    simp only [render_fields, sum_over_fields, node_count_append, leaf_count_append, h1.1, h1.2,
      h2.1, h2.2, Json.containers, Json.scalars, and_self]
theorem render_elems_counts (ui : Ui) (h : ∀ p, ui.is_open p = true) :
    ∀ (xs : List Json) (stack : List Str) (i : Nat),
    node_count (render_elems ui stack i xs) =
      sum_over_elems (fun v => if v.is_container then 1 else 0) xs ∧
    leaf_count (render_elems ui stack i xs) =
      sum_over_elems (fun v => if v.is_container then 0 else 1) xs
  | [], _, _ => by simp [render_elems, sum_over_elems, node_count, leaf_count]
  | x :: xs, stack, i => by
    have h1 := render_counts ui h x stack (some (fmt_zu i))
    have h2 := render_elems_counts ui h xs stack (i + 1)
    simp only [render_elems, sum_over_elems, node_count_append, leaf_count_append, h1.1, h1.2,
      h2.1, h2.2, Json.containers, Json.scalars, and_self]
end

theorem render_fields_eq (ui : Ui) (stack : List Str) : ∀ kvs : List (Str × Json),
    render_fields ui stack kvs =
      kvs.flatMap (fun kv => RenderJsonTree ui stack kv.2 (some (c_str kv.1))) := by
  intro kvs
  induction kvs with
  | nil => simp [render_fields]
  | cons kv rest ih =>
    obtain ⟨k, v⟩ := kv
    simp [render_fields, ih]

theorem render_elems_eq (ui : Ui) (stack : List Str) : ∀ (xs : List Json) (i : Nat),
    render_elems ui stack i xs =
      (xs.enumFrom i).flatMap (fun ix => RenderJsonTree ui stack ix.2 (some (fmt_zu ix.1))) := by
  intro xs
  induction xs with
  | nil => intro i; simp [render_elems]
  | cons x xs ih => intro i; simp [render_elems, ih]

mutual
theorem sum_over_add (f g : Json → Nat) : ∀ j : Json,
    j.sum_over (fun v => f v + g v) = j.sum_over f + j.sum_over g
  | Json.array xs => by
    have ih := sum_over_elems_add f g xs
    simp only [Json.sum_over, ih]
    omega
  | Json.object kvs => by
    have ih := sum_over_fields_add f g kvs
    simp only [Json.sum_over, ih]
    omega
  | Json.null => by simp only [Json.sum_over]
  | Json.boolean _ => by simp only [Json.sum_over]
  | Json.number_integer _ => by simp only [Json.sum_over]
  | Json.number_unsigned _ => by simp only [Json.sum_over]
  | Json.number_float _ => by simp only [Json.sum_over]
  | Json.string _ => by simp only [Json.sum_over]
  | Json.binary _ => by simp only [Json.sum_over]
theorem sum_over_elems_add (f g : Json → Nat) : ∀ xs : List Json,
    sum_over_elems (fun v => f v + g v) xs = sum_over_elems f xs + sum_over_elems g xs
  | [] => by simp only [sum_over_elems]
  | x :: xs => by
    have h1 := sum_over_add f g x
    have h2 := sum_over_elems_add f g xs
    simp only [sum_over_elems, h1, h2]
    omega
theorem sum_over_fields_add (f g : Json → Nat) : ∀ kvs : List (Str × Json),
    sum_over_fields (fun v => f v + g v) kvs = sum_over_fields f kvs + sum_over_fields g kvs
  | [] => by simp only [sum_over_fields]
  | (_, v) :: rest => by
    have h1 := sum_over_add f g v
    have h2 := sum_over_fields_add f g rest
    simp only [sum_over_fields, h1, h2]
    omega
end

theorem count_eq_containers_add_scalars (j : Json) : j.count = j.containers + j.scalars := by
  unfold Json.count Json.containers Json.scalars
  rw [← sum_over_add]
  congr 1
  funext v
  cases v.is_container <;> rfl

/-- C8 as amended: with every tree node open, the renderer emits exactly one tree node per
object or array of the JSON tree and exactly one leaf line per scalar, so the emitted entries
are as many as the JSON values of the tree.  The header of an object node shows its key count
and is followed by the renderings of its entries in map order, each labelled by its key read
as a C string (the key up to its first NUL character, the whole key when it has none); the
header of an array node shows its length and is followed by the renderings of its elements
labelled by their indices 0..n-1 in order; each node is closed by one pop; a value that is
neither an object nor an array gives a single leaf line.  The renderer is a total function:
it returns on every JSON value. -/
theorem render_tree_entries (ui : Ui) (hopen : ∀ p, ui.is_open p = true) (stack : List Str)
    (j : Json) (label : Option Str) :
    node_count (RenderJsonTree ui stack j label) = j.containers ∧
    leaf_count (RenderJsonTree ui stack j label) = j.scalars ∧
    node_count (RenderJsonTree ui stack j label) + leaf_count (RenderJsonTree ui stack j label) =
      j.count ∧
    (∀ kvs, j = Json.object kvs →
      RenderJsonTree ui stack j label =
        Draw.TreeNode (nodeLabel label "object".toList)
            (label.getD "object".toList ++ " \x7b ".toList ++ fmt_zu kvs.length ++ " \x7d".toList) ::
          (kvs.flatMap (fun kv =>
              RenderJsonTree ui (nodeLabel label "object".toList :: stack) kv.2 (some (c_str kv.1))) ++
            [Draw.TreePop])) ∧
    (∀ xs, j = Json.array xs →
      RenderJsonTree ui stack j label =
        Draw.TreeNode (nodeLabel label "array".toList)
            (label.getD "array".toList ++ " [ ".toList ++ fmt_zu xs.length ++ " ]".toList) ::
          (xs.enum.flatMap (fun ix =>
              RenderJsonTree ui (nodeLabel label "array".toList :: stack) ix.2 (some (fmt_zu ix.1))) ++
            [Draw.TreePop])) ∧
    (j.is_container = false → ∃ text, RenderJsonTree ui stack j label = [Draw.BulletText text]) := by
  obtain ⟨h1, h2⟩ := render_counts ui hopen j stack label
  refine ⟨h1, h2, ?_, ?_, ?_, ?_⟩
  · rw [h1, h2, count_eq_containers_add_scalars]
  · rintro kvs rfl
    simp only [RenderJsonTree, hopen, if_true, render_fields_eq, Json.size]
  · rintro xs rfl
    simp only [RenderJsonTree, hopen, if_true, render_elems_eq, Json.size, List.enum]
  · intro hc
    cases j with
    | object kvs => cases hc
    | array xs => cases hc
    | null => exact ⟨_, rfl⟩
    | boolean b => exact ⟨_, rfl⟩
    | number_integer i => exact ⟨_, rfl⟩
    | number_unsigned n => exact ⟨_, rfl⟩
    | number_float bits => exact ⟨_, rfl⟩
    | string s => exact ⟨_, rfl⟩
    | binary bs => exact ⟨_, rfl⟩

/-- The parameters `ui_demo` hold every node open, and on the properties of the second sample
material the renderer emits as many entries as the tree has values. -/
theorem render_tree_entries_witness :
    (∀ p, ui_demo.is_open p = true) ∧
    node_count (RenderJsonTree ui_demo []
        (Json.object [("density".toList, Json.number_unsigned 8960)]) (some "properties".toList)) +
      leaf_count (RenderJsonTree ui_demo []
        (Json.object [("density".toList, Json.number_unsigned 8960)]) (some "properties".toList)) =
      (Json.object [("density".toList, Json.number_unsigned 8960)]).count :=
  ⟨fun _ => rfl,
    (render_tree_entries ui_demo (fun _ => rfl) []
      (Json.object [("density".toList, Json.number_unsigned 8960)])
      (some "properties".toList)).2.2.1⟩

/-- The child of an object whose key has a NUL character is not labelled by the key: for the
object with the single key `a`, NUL, `b` the leaf line reads `a: null`, and the calls differ
from those with the child labelled by the whole key. -/
theorem render_key_with_nul :
    RenderJsonTree ui_demo [] (Json.object [(key_with_nul, Json.null)]) none =
      [Draw.TreeNode "object".toList "object \x7b 1 \x7d".toList,
        Draw.BulletText "a: null".toList, Draw.TreePop] ∧
    RenderJsonTree ui_demo [] (Json.object [(key_with_nul, Json.null)]) none ≠
      Draw.TreeNode "object".toList "object \x7b 1 \x7d".toList ::
        (RenderJsonTree ui_demo ["object".toList] Json.null (some key_with_nul) ++
          [Draw.TreePop]) := by
  decide

/-- C7: at the unsigned JSON integer 18446744073709551615 the leaf line shows -1, while the
decimal representation of the value is 18446744073709551615. -/
theorem render_unsigned_wraps (ui : Ui) (stack : List Str) :
    RenderJsonTree ui stack (Json.number_unsigned 18446744073709551615) (some "n".toList) =
      [Draw.BulletText "n: -1".toList] ∧
    fmt_zu 18446744073709551615 = "18446744073709551615".toList := by
  constructor
  · rfl
  · decide

/-- The conversion `get<long long>()` keeps an unsigned value below `2^63`. -/
theorem get_long_long_unsigned (n : Nat) (hn : n < 9223372036854775808) :
    (Json.number_unsigned n).get_long_long = Int.ofNat n := by
  show ((n : Int) + 2 ^ 63) % 2 ^ 64 - 2 ^ 63 = (n : Int)
  omega

/-- The leaf lines of the scalars: a string between double quotes (as a C string), a boolean as
true or false, null as null, a signed integer and an unsigned integer below `2^63` in decimal;
without a label the line starts with the type word. -/
theorem render_scalar_lines (ui : Ui) (stack : List Str) (label : Option Str) :
    (∀ s, RenderJsonTree ui stack (Json.string s) label =
      [Draw.BulletText (label.getD "string".toList ++ ": \"".toList ++ c_str s ++ "\"".toList)]) ∧
    RenderJsonTree ui stack (Json.boolean true) label =
      [Draw.BulletText (label.getD "bool".toList ++ ": ".toList ++ "true".toList)] ∧
    RenderJsonTree ui stack (Json.boolean false) label =
      [Draw.BulletText (label.getD "bool".toList ++ ": ".toList ++ "false".toList)] ∧
    RenderJsonTree ui stack Json.null label =
      [Draw.BulletText (label.getD "null".toList ++ ": null".toList)] ∧
    (∀ i : Int, RenderJsonTree ui stack (Json.number_integer i) label =
      [Draw.BulletText (label.getD "int".toList ++ ": ".toList ++ fmt_lld i)]) ∧
    (∀ n : Nat, n < 9223372036854775808 →
      RenderJsonTree ui stack (Json.number_unsigned n) label =
        [Draw.BulletText (label.getD "int".toList ++ ": ".toList ++ fmt_zu n)]) ∧
    (∀ bits, RenderJsonTree ui stack (Json.number_float bits) label =
      [Draw.BulletText (label.getD "float".toList ++ ": ".toList ++ ui.fmt_g bits)]) := by
  refine ⟨fun _ => rfl, rfl, rfl, rfl, fun _ => rfl, ?_, fun _ => rfl⟩
  intro n hn
  simp only [RenderJsonTree, get_long_long_unsigned n hn]
  rfl

/-! ### Instances on sample inputs -/

theorem sample_doc_wellformed : WellFormedDoc sample_doc := by
  refine ⟨⟨_, rfl⟩, ?_, ?_⟩
  · intro v h
    have h2 : Json.string "2.1.0".toList = v := Except.ok.inj h
    exact ⟨_, h2.symm⟩
  · intro c mv hc hm
    have h2 : Json.object [("materials".toList, Json.array [
        Json.object [("id".toList, Json.string "fe".toList), ("name".toList, Json.string "Iron".toList),
          ("tags".toList, Json.array [Json.string "metal".toList])],
        Json.object [("id".toList, Json.string "cu".toList), ("name".toList, Json.string "Copper".toList),
          ("properties".toList, Json.object [("density".toList, Json.number_unsigned 8960)])]])] = c :=
      Except.ok.inj hc
    subst h2
    have h3 : Json.array [
        Json.object [("id".toList, Json.string "fe".toList), ("name".toList, Json.string "Iron".toList),
          ("tags".toList, Json.array [Json.string "metal".toList])],
        Json.object [("id".toList, Json.string "cu".toList), ("name".toList, Json.string "Copper".toList),
          ("properties".toList, Json.object [("density".toList, Json.number_unsigned 8960)])]] = mv :=
      Except.ok.inj hm
    subst h3
    refine ⟨_, rfl, ?_⟩
    intro x hx
    simp only [List.mem_cons, List.mem_singleton, List.not_mem_nil, or_false] at hx
    rcases hx with rfl | rfl
    · refine ⟨⟨_, rfl⟩, ⟨_, rfl⟩, ?_⟩
      intro v h
      have h4 : Json.array [Json.string "metal".toList] = v := Except.ok.inj h
      exact ⟨["metal".toList], h4.symm⟩
    · refine ⟨⟨_, rfl⟩, ⟨_, rfl⟩, ?_⟩
      intro v h
      cases h

/-- The sample document is well-formed, and its load returns true. -/
theorem load_optional_fields_witness :
    WellFormedDoc sample_doc ∧
    (LoadBundleFromFile (one_file []) (parse_as sample_doc) "bundle.json".toList sample_state
      []).ok = true :=
  ⟨sample_doc_wellformed,
    (load_optional_fields (one_file []) (parse_as sample_doc) "bundle.json".toList sample_state
      [] [] sample_doc rfl rfl sample_doc_wellformed).1⟩

theorem sample_materials_wellformed :
    ∀ x ∈ [Json.object [("id".toList, Json.string "fe".toList), ("name".toList, Json.string "Iron".toList),
          ("tags".toList, Json.array [Json.string "metal".toList])],
        Json.object [("id".toList, Json.string "cu".toList), ("name".toList, Json.string "Copper".toList),
          ("properties".toList, Json.object [("density".toList, Json.number_unsigned 8960)])]],
      WellFormedMaterial x := by
  intro x hx
  simp only [List.mem_cons, List.mem_singleton, List.not_mem_nil, or_false] at hx
  rcases hx with rfl | rfl
  · refine ⟨⟨_, rfl⟩, ⟨_, rfl⟩, ?_⟩
    intro v h
    have h4 : Json.array [Json.string "metal".toList] = v := Except.ok.inj h
    exact ⟨["metal".toList], h4.symm⟩
  · refine ⟨⟨_, rfl⟩, ⟨_, rfl⟩, ?_⟩
    intro v h
    cases h

/-- The sample document loads, and its two materials are in the list. -/
theorem load_populates_materials_witness :
    (LoadBundleFromFile (one_file []) (parse_as sample_doc) "bundle.json".toList sample_state
      []).ok = true ∧
    (LoadBundleFromFile (one_file []) (parse_as sample_doc) "bundle.json".toList sample_state
      []).state.bundle.catalogs.materials.length = 2 :=
  ⟨(load_populates_materials (one_file []) (parse_as sample_doc) "bundle.json".toList sample_state
      [] [] sample_doc _ _ rfl rfl
      (fun v h => ⟨"2.1.0".toList, (Except.ok.inj h : Json.string "2.1.0".toList = v).symm⟩)
      rfl rfl sample_materials_wellformed).1,
    (load_populates_materials (one_file []) (parse_as sample_doc) "bundle.json".toList sample_state
      [] [] sample_doc _ _ rfl rfl
      (fun v h => ⟨"2.1.0".toList, (Except.ok.inj h : Json.string "2.1.0".toList = v).symm⟩)
      rfl rfl sample_materials_wellformed).2.1⟩

/-- A load that fails on the structure of the document changes the state: from the sample
state, loading the document whose material has no id returns false and leaves an empty
material list where one material was. -/
theorem load_failure_resets_bundle :
    (LoadBundleFromFile (one_file []) (parse_as doc_missing_id) "bundle.json".toList sample_state
      []).ok = false ∧
    (LoadBundleFromFile (one_file []) (parse_as doc_missing_id) "bundle.json".toList sample_state
      []).state.bundle.catalogs.materials = [] ∧
    sample_state.bundle.catalogs.materials ≠ [] ∧
    (LoadBundleFromFile (one_file []) (parse_as doc_missing_id) "bundle.json".toList sample_state
      []).state ≠ sample_state := by
  refine ⟨rfl, rfl, ?_, ?_⟩
  · intro h
    exact List.noConfusion h
  · intro h
    have h2 := congrArg (fun s : AppState => s.bundle.catalogs.materials.length) h
    exact absurd h2 (by decide)

/-- The sample load succeeds from the sample state, and then from the default state with the
same bundle. -/
theorem load_replaces_bundle_witness :
    (LoadBundleFromFile (one_file []) (parse_as sample_doc) "bundle.json".toList sample_state
      []).ok = true ∧
    (LoadBundleFromFile (one_file []) (parse_as sample_doc) "bundle.json".toList {} []).state.bundle =
      (LoadBundleFromFile (one_file []) (parse_as sample_doc) "bundle.json".toList sample_state
        []).state.bundle :=
  ⟨rfl,
    (load_replaces_bundle (one_file []) (parse_as sample_doc) "bundle.json".toList sample_state {}
      [] [] rfl).2.1⟩

/-- A valid selection is not kept by a load that fails on the structure of the document:
the sample state selects its only material, the load of the document whose material has no
id returns false, and afterwards selected is 0 with an empty material list. -/
theorem load_failure_stale_selection :
    ValidSelection sample_state ∧
    (LoadBundleFromFile (one_file []) (parse_as doc_missing_id) "bundle.json".toList sample_state
      []).ok = false ∧
    ¬ ValidSelection (LoadBundleFromFile (one_file []) (parse_as doc_missing_id)
      "bundle.json".toList sample_state []).state := by
  refine ⟨Or.inr ⟨by decide, by decide⟩, rfl, ?_⟩
  rintro (h | ⟨_, h⟩)
  · exact absurd h (by decide)
  · exact absurd h (by decide)

/-- The sample state has a valid selection, and so has the state after the sample load. -/
theorem load_selection_witness :
    ValidSelection sample_state ∧
    ValidSelection (LoadBundleFromFile (one_file []) (parse_as sample_doc) "bundle.json".toList
      sample_state []).state :=
  ⟨Or.inr ⟨by decide, by decide⟩,
    ((load_selection (one_file []) (parse_as sample_doc) "bundle.json".toList sample_state []
      (Or.inr ⟨by decide, by decide⟩)).1 rfl).1⟩

/-- The document whose material has no id is not well-formed; its load from the sample state
returns false and keeps the selection and the filter of that state. -/
theorem load_failure_state_witness :
    ¬ WellFormedDoc doc_missing_id ∧
    (LoadBundleFromFile (one_file []) (parse_as doc_missing_id) "bundle.json".toList sample_state
      []).ok = false ∧
    (LoadBundleFromFile (one_file []) (parse_as doc_missing_id) "bundle.json".toList sample_state
      []).state.selected = 0 :=
  ⟨((load_failure_state (one_file []) (parse_as doc_missing_id) "bundle.json".toList sample_state
      []).2.2.2 [] doc_missing_id rfl rfl).mp rfl,
    rfl,
    ((load_failure_state (one_file []) (parse_as doc_missing_id) "bundle.json".toList sample_state
      []).2.2.1 [] doc_missing_id rfl rfl
      (((load_failure_state (one_file []) (parse_as doc_missing_id) "bundle.json".toList
        sample_state []).2.2.2 [] doc_missing_id rfl rfl).mp rfl)).2.1⟩

end ims
